import Mathlib

/-!
Verification of the link-repair engine of this repository.

The scripts under `scripts/` and `agents/_store/projects/_core/rules/01__AI-RUN/`
scan markdown-like lines for broken `[name](path)` shapes (described by Python
regular expressions), and splice in corrected link text.  This file gives a
shallow embedding of those scripts over `List Char`:

* a small backtracking regular-expression engine (`RE`, `mrun`, `finditer`,
  `reSub`) faithful to Python `re` semantics for the constructs the scripts
  use (literals, character classes with bounded/unbounded greedy or lazy
  repetition, capture groups, single-character negative lookbehind/lookahead,
  alternation of two literals);
* the pattern catalogs and per-line detect/fix functions of
  `scripts/fix_broken_links.py` and `scripts/fix_cursor_rules_links.py`;
* the whole-content rewriters of
  `agents/_store/projects/_core/rules/01__AI-RUN/fix_paths.py` and
  `final_fix.py`;
* the registry loaders and the per-file / per-run orchestration.
-/

namespace LinkRepair

/-- Lines and strings are modelled as lists of characters. -/
abbrev Str := List Char

/-! ### Python dict / str helpers -/

/-- Association-list model of a Python dict: lookup of a key. -/
def lookupA (m : List (Str × Str)) (k : Str) : Option Str :=
  (m.find? (fun e => e.1 == k)).map (·.2)

/-- Association-list model of a Python dict: `d[k] = v` (replace in place or append). -/
def insertA : List (Str × Str) → Str → Str → List (Str × Str)
  | [], k, v => [(k, v)]
  | e :: t, k, v => if e.1 == k then (k, v) :: t else e :: insertA t k v

abbrev AList := List (Str × Str)

/-- Boolean test that `pat` is a prefix of `s`. -/
def litMatch : Str → Str → Bool
  | [], _ => true
  | _ :: _, [] => false
  | c :: cs, d :: ds => c == d && litMatch cs ds

/-- Python `pat in s` substring test. -/
def containsSub (pat : Str) : Str → Bool
  | [] => litMatch pat []
  | c :: t => litMatch pat (c :: t) || containsSub pat t

/-- Python whitespace characters (the ASCII part of `\s`). -/
def isWs (c : Char) : Bool :=
  c == ' ' || c == '\t' || c == '\n' || c == '\r' || c == '\x0b' || c == '\x0c'

/-- Python `str.strip()`. -/
def pyStrip (s : Str) : Str :=
  ((s.dropWhile isWs).reverse.dropWhile isWs).reverse

/-- Python `str.rstrip('\n')`. -/
def rstripNl (s : Str) : Str :=
  (s.reverse.dropWhile (fun c => c == '\n')).reverse

/-- Python `str.endswith(suf)`. -/
def endsWithS (suf s : Str) : Bool :=
  decide (suf.length ≤ s.length) && s.drop (s.length - suf.length) == suf

/-- Python `str.split(sep, 1)`: split at the first occurrence of `sep`
(`none` when `sep` does not occur). -/
def pySplit1 (sep : Str) : Str → Option (Str × Str)
  | [] => none
  | c :: t =>
    if litMatch sep (c :: t) then some ([], (c :: t).drop sep.length)
    else
      match pySplit1 sep t with
      | some (a, b) => some (c :: a, b)
      | none => none

/-- Python `str.split('\n')` (all occurrences). -/
def splitNl : Str → List Str
  | [] => [[]]
  | c :: t =>
    let r := splitNl t
    if c == '\n' then [] :: r
    else
      match r with
      | h :: t' => (c :: h) :: t'
      | [] => [[c]]

/-- Fuel-driven worker for `pyReplace`. -/
def pyReplaceAux (a b : Str) : Str → Nat → Str
  | s, 0 => s
  | s, fuel + 1 =>
    if a ≠ [] ∧ litMatch a s = true then b ++ pyReplaceAux a b (s.drop a.length) fuel
    else
      match s with
      | [] => []
      | c :: t => c :: pyReplaceAux a b t fuel

/-- Python `str.replace(a, b)` for nonempty `a`: replace every non-overlapping
occurrence, scanning left to right. -/
def pyReplace (a b s : Str) : Str := pyReplaceAux a b s s.length

/-! ### A small backtracking regular-expression engine

Sufficient for every regex in the repository: literals, character classes with
`{lo,hi}` / `*` / `+` / `+?` repetition, capture groups, single-character
negative lookbehind `(?<!c)` and lookahead `(?!c)`, and alternation. -/

inductive RE where
  | eps
  | lit (cs : Str)
  | cls (neg : Bool) (cs : Str) (lo : Nat) (hi : Option Nat) (lazy : Bool)
  | seq (a b : RE)
  | alt (a b : RE)
  | group (i : Nat) (r : RE)
  | nlb (c : Char)
  | nla (c : Char)

/-- Membership of a character in a (possibly negated) class. -/
def clsMem (neg : Bool) (cs : Str) (c : Char) : Bool :=
  if neg then !(cs.contains c) else cs.contains c

/-- Length of the longest prefix of `s` whose characters all belong to the class. -/
def runLen (neg : Bool) (cs : Str) : Str → Nat
  | [] => 0
  | c :: t => if clsMem neg cs c then runLen neg cs t + 1 else 0

/-- All ways to match `r` in `s` starting at `pos`, in Python backtracking
priority order.  Each result is the end position paired with the captured
group texts. -/
def mrun : RE → Str → Nat → List (Nat × List (Nat × Str))
  | .eps, _, pos => [(pos, [])]
  | .lit cs, s, pos =>
    if litMatch cs (s.drop pos) then [(pos + cs.length, [])] else []
  | .cls neg cs lo hi laz, s, pos =>
    let r := runLen neg cs (s.drop pos)
    let cap := match hi with | none => r | some h => min h r
    if lo ≤ cap then
      (if laz then List.range' lo (cap + 1 - lo)
       else (List.range' lo (cap + 1 - lo)).reverse).map (fun k => (pos + k, []))
    else []
  | .seq a b, s, pos =>
    (mrun a s pos).flatMap (fun pc =>
      (mrun b s pc.1).map (fun qc => (qc.1, pc.2 ++ qc.2)))
  | .alt a b, s, pos => mrun a s pos ++ mrun b s pos
  | .group i r, s, pos =>
    (mrun r s pos).map (fun pc => (pc.1, (i, (s.drop pos).take (pc.1 - pos)) :: pc.2))
  | .nlb c, s, pos =>
    match pos with
    | 0 => [(0, [])]
    | q + 1 => if s.get? q == some c then [] else [(q + 1, [])]
  | .nla c, s, pos =>
    if s.get? pos == some c then [] else [(pos, [])]

/-- Captured text of group `i`. -/
def capGet (caps : List (Nat × Str)) (i : Nat) : Option Str :=
  (caps.find? (fun c => c.1 == i)).map (·.2)

/-- Python `re.match`: anchored at position 0, first match in priority order. -/
def reMatch (r : RE) (s : Str) : Option (Nat × List (Nat × Str)) :=
  (mrun r s 0).head?

/-- Scan positions `pos, pos+1, ...` for the first position where `r` matches;
returns (start, end, captures). -/
def searchFrom (r : RE) (s : Str) : Nat → Nat → Option (Nat × Nat × List (Nat × Str))
  | _, 0 => none
  | pos, fuel + 1 =>
    match (mrun r s pos).head? with
    | some (e, caps) => some (pos, e, caps)
    | none => if pos < s.length then searchFrom r s (pos + 1) fuel else none

/-- Python `re.search`. -/
def reSearch (r : RE) (s : Str) : Option (Nat × Nat × List (Nat × Str)) :=
  searchFrom r s 0 (s.length + 1)

/-- Fuel-driven worker for `finditer`. -/
def finditerAux (r : RE) (s : Str) : Nat → Nat → List (Nat × Nat × List (Nat × Str))
  | _, 0 => []
  | pos, fuel + 1 =>
    match searchFrom r s pos (s.length + 1 - pos) with
    | none => []
    | some (st, en, caps) =>
      (st, en, caps) :: finditerAux r s (if st < en then en else en + 1) fuel

/-- Python `re.finditer`: successive non-overlapping matches, left to right. -/
def finditer (r : RE) (s : Str) : List (Nat × Nat × List (Nat × Str)) :=
  finditerAux r s 0 (s.length + 1)

/-- A replacement template piece: literal text or a group backreference. -/
inductive Tmpl where
  | str (cs : Str)
  | ref (i : Nat)

/-- Instantiate a replacement template with the captures of a match. -/
def instTmpl (t : List Tmpl) (caps : List (Nat × Str)) : Str :=
  t.flatMap (fun piece =>
    match piece with
    | .str cs => cs
    | .ref i => (capGet caps i).getD [])

/-- Fuel-driven worker for `reSub`. -/
def subAux (r : RE) (t : List Tmpl) (s : Str) : Nat → Nat → Str
  | pos, 0 => s.drop pos
  | pos, fuel + 1 =>
    match searchFrom r s pos (s.length + 1 - pos) with
    | none => s.drop pos
    | some (st, en, caps) =>
      (s.drop pos).take (st - pos) ++ instTmpl t caps ++
        (if st < en then subAux r t s en fuel
         else (s.drop st).take 1 ++ subAux r t s (st + 1) fuel)

/-- Python `re.sub`: replace every non-overlapping match, left to right. -/
def reSub (r : RE) (t : List Tmpl) (s : Str) : Str :=
  subAux r t s 0 (s.length + 1)

/-- Literal regex atom from a string literal. -/
def reLit (s : String) : RE := .lit s.toList

/-- Class regex atom from a string literal. -/
def reCls (neg : Bool) (s : String) (lo : Nat) (hi : Option Nat) (laz : Bool) : RE :=
  .cls neg s.toList lo hi laz

/-- Sequence of regex atoms. -/
def reSeq (l : List RE) : RE := l.foldr RE.seq RE.eps

/-- Template literal piece from a string literal. -/
def ts (s : String) : Tmpl := .str s.toList

/-! ### `agents/_store/projects/_core/rules/01__AI-RUN/fix_paths.py` -/

/-- Pattern 1 of `fix_file_paths`: regex `\[([^]]+\.mdc)\]\(\.\./([^)]+)\)`. -/
def fpPat1 : RE :=
  reSeq [reLit "[",
         .group 1 (reSeq [reCls true "]" 1 none false, reLit ".mdc"]),
         reLit "](../",
         .group 2 (reCls true ")" 1 none false),
         reLit ")"]

/-- Replacement for pattern 1: `[\1](agents/_store/projects/_core/\2)`. -/
def fpTmpl1 : List Tmpl :=
  [ts "[", .ref 1, ts "](agents/_store/projects/_core/", .ref 2, ts ")"]

/-- Pattern 2 (and the identical pattern 3) of `fix_file_paths`:
regex `\[([^]]+\.mdc)\]\(([^/][^)]*\.mdc)\)`. -/
def fpPat2 : RE :=
  reSeq [reLit "[",
         .group 1 (reSeq [reCls true "]" 1 none false, reLit ".mdc"]),
         reLit "](",
         .group 2 (reSeq [reCls true "/" 1 (some 1) false,
                          reCls true ")" 0 none false,
                          reLit ".mdc"]),
         reLit ")"]

/-- Replacement for pattern 2:
`[\1](agents/_store/projects/_core/rules/01__AI-RUN/\2)`. -/
def fpTmpl2 : List Tmpl :=
  [ts "[", .ref 1, ts "](agents/_store/projects/_core/rules/01__AI-RUN/", .ref 2, ts ")"]

/-- `fix_file_paths` of `fix_paths.py` on a file's content: substitute
pattern 1, then pattern 2, then pattern 3 (textually identical to pattern 2). -/
def fix_file_paths (content : Str) : Str :=
  let c1 := reSub fpPat1 fpTmpl1 content
  let c2 := reSub fpPat2 fpTmpl2 c1
  reSub fpPat2 fpTmpl2 c2

/-! ### `agents/_store/projects/_core/rules/01__AI-RUN/final_fix.py` -/

/-- Pattern 1 of `fix_all_paths`: regex `\[(\.\./[^]]+\.mdc)\]\(([^)]+\.mdc)\)`. -/
def ffPat1 : RE :=
  reSeq [reLit "[",
         .group 1 (reSeq [reLit "../", reCls true "]" 1 none false, reLit ".mdc"]),
         reLit "](",
         .group 2 (reSeq [reCls true ")" 1 none false, reLit ".mdc"]),
         reLit ")"]

/-- `fix_all_paths` of `final_fix.py` on a file's content: two regex
substitutions followed by the literal `str.replace` corrections. -/
def fix_all_paths (content : Str) : Str :=
  let c := reSub ffPat1 fpTmpl1 content
  let c := reSub fpPat2 fpTmpl2 c
  let c := pyReplace "agents/_store/projects/_core/rules/01__AI-RUN/projet/".toList
                     "agents/_store/projects/_core/projet/".toList c
  let c := pyReplace "agents/_store/projects/_core/rules/01__AI-RUN/02__AI-DOCS/".toList
                     "agents/_store/projects/_core/rules/02__AI-DOCS/".toList c
  let c := pyReplace "agents/_store/projects/_core/rules/01__AI-RUN/03__SPECS/".toList
                     "agents/_store/projects/_core/rules/03__SPECS/".toList c
  let c := pyReplace "agents/_store/projects/_core/rules/01__AI-RUN/tasks/".toList
                     "agents/_store/projects/_core/tasks/".toList c
  pyReplace "](mdc:agents/_store/projects/_core/".toList
            "](agents/_store/projects/_core/".toList c

/-! ### `scripts/fix_broken_links.py`: the pattern catalog -/

/-- Inline-code pattern of `detect_broken_patterns_in_line`:
regex `` `\[[^\]]+\]\([^)]+\)` ``. -/
def fbInline : RE :=
  reSeq [reLit "`[", reCls true "]" 1 none false, reLit "](",
         reCls true ")" 1 none false, reLit ")`"]

/-- Pattern 1, nested brackets:
`\[([^\]]{1,100})\]\(([^)]{0,200})\[([^\]]{1,100})\]\(([^)]{1,200})\)\)`. -/
def fb1 : RE :=
  reSeq [reLit "[", .group 1 (reCls true "]" 1 (some 100) false),
         reLit "](", .group 2 (reCls true ")" 0 (some 200) false),
         reLit "[", .group 3 (reCls true "]" 1 (some 100) false),
         reLit "](", .group 4 (reCls true ")" 1 (some 200) false),
         reLit "))"]

/-- Pattern 2, double `.cursor/rules` paths:
`\[([^\]]{1,100})\]\(([^)]*\.cursor/rules/[^)]*\.cursor/rules/[^)]{1,200})\)`. -/
def fb2 : RE :=
  reSeq [reLit "[", .group 1 (reCls true "]" 1 (some 100) false),
         reLit "](",
         .group 2 (reSeq [reCls true ")" 0 none false, reLit ".cursor/rules/",
                          reCls true ")" 0 none false, reLit ".cursor/rules/",
                          reCls true ")" 1 (some 200) false]),
         reLit ")"]

/-- Pattern 3, double ending brackets:
`\[([^\]]{1,100})\]\(([^)]{1,200})\)\]\(([^)]{1,200})\)`. -/
def fb3 : RE :=
  reSeq [reLit "[", .group 1 (reCls true "]" 1 (some 100) false),
         reLit "](", .group 2 (reCls true ")" 1 (some 200) false),
         reLit ")](", .group 3 (reCls true ")" 1 (some 200) false),
         reLit ")"]

/-- Pattern 4, mixed text with embedded links:
`(?<!\[)([^[\n]{0,50})\.cursor/rules/[^/\n]{1,50}/\[([^\]]{1,100})\]\(([^)]{1,200})\)`. -/
def fb4 : RE :=
  reSeq [.nlb '[', .group 1 (reCls true "[\n" 0 (some 50) false),
         reLit ".cursor/rules/", reCls true "/\n" 1 (some 50) false,
         reLit "/[", .group 2 (reCls true "]" 1 (some 100) false),
         reLit "](", .group 3 (reCls true ")" 1 (some 200) false),
         reLit ")"]

/-- Pattern 5, malformed path with extra brackets:
`\[([^\]]{1,100})\]\(([^)]{0,100})\[([^\]]{0,50})\]([^)]{0,100})\)`. -/
def fb5 : RE :=
  reSeq [reLit "[", .group 1 (reCls true "]" 1 (some 100) false),
         reLit "](", .group 2 (reCls true ")" 0 (some 100) false),
         reLit "[", .group 3 (reCls true "]" 0 (some 50) false),
         reLit "]", .group 4 (reCls true ")" 0 (some 100) false),
         reLit ")"]

/-- Pattern 6, backtick-bracket combinations:
`\[`\[([^\]]{1,100})\]\(([^)]{1,200})\)\)`. -/
def fb6 : RE :=
  reSeq [reLit "[`[", .group 1 (reCls true "]" 1 (some 100) false),
         reLit "](", .group 2 (reCls true ")" 1 (some 200) false),
         reLit "))"]

/-- Pattern 7, missing closing bracket before double parenthesis:
`\[`([^\]]{1,100})\]\(([^)]{1,200})\)\)`. -/
def fb7 : RE :=
  reSeq [reLit "[`", .group 1 (reCls true "]" 1 (some 100) false),
         reLit "](", .group 2 (reCls true ")" 1 (some 200) false),
         reLit "))"]

/-- Pattern 8, double square brackets:
`\[\[([^\]]{1,100})\]\(([^)]{1,200})\)`. -/
def fb8 : RE :=
  reSeq [reLit "[[", .group 1 (reCls true "]" 1 (some 100) false),
         reLit "](", .group 2 (reCls true ")" 1 (some 200) false),
         reLit ")"]

/-- Pattern 9, complex nested with backticks:
`\[`\[([^\]]{1,100})\]\(([^)]{1,200})\)`\]\(([^)]{1,200})\)`. -/
def fb9 : RE :=
  reSeq [reLit "[`[", .group 1 (reCls true "]" 1 (some 100) false),
         reLit "](", .group 2 (reCls true ")" 1 (some 200) false),
         reLit ")`](", .group 3 (reCls true ")" 1 (some 200) false),
         reLit ")"]

/-- Pattern 10, missing close bracket (textually identical regex to pattern 7). -/
def fb10 : RE :=
  reSeq [reLit "[`", .group 1 (reCls true "]" 1 (some 100) false),
         reLit "](", .group 2 (reCls true ")" 1 (some 200) false),
         reLit "))"]

/-- One detected broken pattern of `fix_broken_links.py`: its type tag, the
filename field that `fix_broken_patterns_in_line` looks up in the registry,
and the match span. -/
structure FBPat where
  ptype : String
  key : Str
  start : Nat
  stop : Nat
deriving Repr, DecidableEq

/-- Build an `FBPat` from a finditer match, taking group `g` as the lookup key. -/
def mkFB (t : String) (g : Nat) (m : Nat × Nat × List (Nat × Str)) : FBPat :=
  ⟨t, (capGet m.2.2 g).getD [], m.1, m.2.1⟩

/-- `detect_broken_patterns_in_line` of `fix_broken_links.py`: patterns 1-5 are
always scanned; patterns 6-10 only when the line has no inline-code token.
The lookup key is group 3 (`inner_filename`) for pattern 1, group 2 for
pattern 4, and group 1 otherwise, mirroring the fields the fixer reads. -/
def detectFB (line : Str) : List FBPat :=
  let base :=
    (finditer fb1 line).map (mkFB "nested_brackets" 3) ++
    (finditer fb2 line).map (mkFB "double_path" 1) ++
    (finditer fb3 line).map (mkFB "double_ending" 1) ++
    (finditer fb4 line).map (mkFB "mixed_text_link" 2) ++
    (finditer fb5 line).map (mkFB "malformed_path" 1)
  if (reSearch fbInline line).isSome then base
  else
    base ++
    (finditer fb6 line).map (mkFB "backtick_bracket" 1) ++
    (finditer fb7 line).map (mkFB "missing_bracket_double_paren" 1) ++
    (finditer fb8 line).map (mkFB "double_square_bracket" 1) ++
    (finditer fb9 line).map (mkFB "complex_nested_backtick" 1) ++
    (finditer fb10 line).map (mkFB "missing_close_bracket" 1)

/-- The type tags handled by the branches of `fix_broken_patterns_in_line`. -/
def fbKnownTypes : List String :=
  ["nested_brackets", "double_path", "malformed_path", "double_ending",
   "mixed_text_link", "backtick_bracket", "missing_bracket_double_paren",
   "double_square_bracket", "complex_nested_backtick", "missing_close_bracket"]

/-- Stable insertion into a list sorted by strictly descending key. -/
def insDesc {α : Type} (key : α → Nat) (x : α) : List α → List α
  | [] => [x]
  | y :: t => if key y < key x then x :: y :: t else y :: insDesc key x t

/-- Python `sorted(l, key=key, reverse=True)` (stable descending sort). -/
def sortDesc {α : Type} (key : α → Nat) (l : List α) : List α :=
  l.foldl (fun acc x => insDesc key x acc) []

/-- The corrected form `[filename](path)` emitted by every fix branch. -/
def canonicalLink (f p : Str) : Str :=
  "[".toList ++ f ++ "](".toList ++ p ++ ")".toList

/-- Replace the span `[st, en)` of `s` by `r`. -/
def spliceStr (s : Str) (st en : Nat) (r : Str) : Str :=
  s.take st ++ r ++ s.drop en

/-- One iteration of the loop of `fix_broken_patterns_in_line` of
`fix_broken_links.py`: for a known pattern type whose filename is in the
registry, splice in the canonical link and count one fix; otherwise leave
the accumulator unchanged. -/
def fbStep (m : AList) (acc : Str × Nat) (p : FBPat) : Str × Nat :=
  if fbKnownTypes.contains p.ptype then
    match lookupA m p.key with
    | some cp => (spliceStr acc.1 p.start p.stop (canonicalLink p.key cp), acc.2 + 1)
    | none => acc
  else acc

/-- `fix_broken_patterns_in_line` of `fix_broken_links.py`: process the
detected patterns in descending start order; for each known pattern type,
look the filename up in the registry and, only when found, splice in the
canonical link and count one fix. -/
def fixFB (line : Str) (ps : List FBPat) (m : AList) : Str × Nat :=
  (sortDesc (fun p => p.start) ps).foldl (fbStep m) (line, 0)

/-- `process_file` of `fix_broken_links.py` on in-memory content: returns
(whether the file was opened for writing, the content on disk afterwards,
the fix count the function returns). -/
def processFileFB (lines : List Str) (m : AList) : Bool × List Str × Nat :=
  let proc := lines.map (fun l =>
    let ps := detectFB l
    if ps.isEmpty then (l, 0, 0)
    else
      let r := fixFB l ps m
      (r.1, r.2, ps.length))
  let totalPatterns := (proc.map (fun x => x.2.2)).sum
  let totalFixes := (proc.map (fun x => x.2.1)).sum
  if totalPatterns == 0 then (false, lines, 0)
  else if totalFixes > 0 then (true, proc.map (fun x => x.1), totalFixes)
  else (false, lines, 0)

/-- Registry-line regex of `load_file_mappings`: `(.+?) : \[(.+?)\]\((.+?)\)`. -/
def registryRE : RE :=
  reSeq [.group 1 (reCls true "\n" 1 none true),
         reLit " : [",
         .group 2 (reCls true "\n" 1 none true),
         reLit "](",
         .group 3 (reCls true "\n" 1 none true),
         reLit ")"]

/-- One line of `load_file_mappings` of `fix_broken_links.py`: strip, check the
two required substrings, `re.match` the registry regex, and map
group 1 (filename) to group 3 (path). -/
def loadFBLine (m : AList) (l : Str) : AList :=
  let l := pyStrip l
  if containsSub " : [".toList l && containsSub "](".toList l then
    match reMatch registryRE l with
    | some mc =>
      match capGet mc.2 1, capGet mc.2 3 with
      | some f, some p => insertA m f p
      | _, _ => m
    | none => m
  else m

/-- `load_file_mappings` of `fix_broken_links.py`: `none` models a missing
`cursor_files_list.mdc` (empty mapping, run continues); otherwise fold over
the lines. -/
def loadFB : Option (List Str) → AList
  | none => []
  | some lines => lines.foldl loadFBLine []

/-- The gate in `main` of `fix_broken_links.py`: with an empty mapping the
run prints an error and returns before processing any file. -/
def mainProceedsFB (m : AList) : Bool := !m.isEmpty

/-- Per-file outcome for a run: the read fails, or the file has these lines
and its write (if attempted) fails or succeeds. -/
inductive FileOutcome where
  | readError
  | ok (lines : List Str) (writeFails : Bool)

/-- Fix count returned by `process_file` for one file, with read and write
errors caught inside the function: an error file reports 0 fixes. -/
def perFileFB (m : AList) : FileOutcome → Nat
  | .readError => 0
  | .ok lines wf =>
    let r := processFileFB lines m
    if r.1 && wf then 0 else r.2.2

/-- The per-file loop of `main` of `fix_broken_links.py`: accumulate
(files fixed, total fixes) over every target file. -/
def runFB (files : List FileOutcome) (m : AList) : Nat × Nat :=
  files.foldl (fun acc f =>
    let fx := perFileFB m f
    (acc.1 + (if fx > 0 then 1 else 0), acc.2 + fx)) (0, 0)

/-! ### `scripts/fix_cursor_rules_links.py` -/

/-- Simple inline-code pattern: `` (?<!\[)`\[[^\]]+\]\([^)]+\)`(?!\]) ``. -/
def crSimpleInline : RE :=
  reSeq [.nlb '[', reLit "`[", reCls true "]" 1 none false, reLit "](",
         reCls true ")" 1 none false, reLit ")`", .nla ']']

/-- Complex-pattern marker: `` \[`\[|\]`\] ``. -/
def crComplexMark : RE := .alt (reLit "[`[") (reLit "]`]")

/-- Pattern 1, nested brackets with double paths:
`\[([^\]]+)\]\([^)]*\[([^\]]+)\]\([^)]*\)[^)]*\)`. -/
def cr1 : RE :=
  reSeq [reLit "[", .group 1 (reCls true "]" 1 none false),
         reLit "](", reCls true ")" 0 none false,
         reLit "[", .group 2 (reCls true "]" 1 none false),
         reLit "](", reCls true ")" 0 none false,
         reLit ")", reCls true ")" 0 none false, reLit ")"]

/-- Pattern 2, mixed text with embedded links:
`([^[\s]+)/\[([^\]]+)\]\(([^)]+)\)`. -/
def cr2 : RE :=
  reSeq [.group 1 (reCls true "[ \t\n\r\x0b\x0c" 1 none false),
         reLit "/[", .group 2 (reCls true "]" 1 none false),
         reLit "](", .group 3 (reCls true ")" 1 none false),
         reLit ")"]

/-- Pattern 3, complex bracket/backtick combinations:
`\[`\[([^\]]+)\]\(([^)]+)\)\]`. -/
def cr3 : RE :=
  reSeq [reLit "[`[", .group 1 (reCls true "]" 1 none false),
         reLit "](", .group 2 (reCls true ")" 1 none false),
         reLit ")]"]

/-- Pattern 4, double square brackets: `\[\[([^\]]+)\]\(([^)]+)\)`. -/
def cr4 : RE :=
  reSeq [reLit "[[", .group 1 (reCls true "]" 1 none false),
         reLit "](", .group 2 (reCls true ")" 1 none false),
         reLit ")"]

/-- Pattern 5, backtick-bracket combinations: `` `\[([^\]]+)\]\(([^)]+)\)\] ``. -/
def cr5 : RE :=
  reSeq [reLit "`[", .group 1 (reCls true "]" 1 none false),
         reLit "](", .group 2 (reCls true ")" 1 none false),
         reLit ")]"]

/-- Pattern 6, missing opening bracket:
`(?<!\[)([^\s\[\]]+\.mdc)\]\(([^)]+)\)`. -/
def cr6 : RE :=
  reSeq [.nlb '[',
         .group 1 (reSeq [reCls true " \t\n\r\x0b\x0c[]" 1 none false, reLit ".mdc"]),
         reLit "](", .group 2 (reCls true ")" 1 none false),
         reLit ")"]

/-- Pattern 7, double parentheses: `\(([^)]+\.mdc)\)\(([^)]+\.mdc)\)`. -/
def cr7 : RE :=
  reSeq [reLit "(",
         .group 1 (reSeq [reCls true ")" 1 none false, reLit ".mdc"]),
         reLit ")(",
         .group 2 (reSeq [reCls true ")" 1 none false, reLit ".mdc"]),
         reLit ")"]

/-- Pattern 8, absolute `.cursor/rules/` paths:
`\[([^\]]+)\]\(\.cursor/rules/([^)]+)\)`. -/
def cr8 : RE :=
  reSeq [reLit "[", .group 1 (reCls true "]" 1 none false),
         reLit "](.cursor/rules/", .group 2 (reCls true ")" 1 none false),
         reLit ")"]

/-- One detected broken pattern of `fix_cursor_rules_links.py`: type tag, the
matched text, the span, and the predetermined replacement string. -/
structure CRPat where
  ptype : String
  mtext : Str
  start : Nat
  stop : Nat
  fix : Str
deriving Repr, DecidableEq

/-- Build a `CRPat` from a finditer match on `line`, with the replacement
computed from the captures by `mk`. -/
def mkCR (t : String) (line : Str) (mk : List (Nat × Str) → Str)
    (m : Nat × Nat × List (Nat × Str)) : CRPat :=
  ⟨t, (line.drop m.1).take (m.2.1 - m.1), m.1, m.2.1, mk m.2.2⟩

/-- Captured text of group `i`, defaulting to the empty string. -/
def capD (caps : List (Nat × Str)) (i : Nat) : Str := (capGet caps i).getD []

/-- `detect_broken_patterns_in_line` of `fix_cursor_rules_links.py`: return no
patterns when the line has a simple inline-code token and no complex marker;
otherwise scan patterns 1-8, each carrying its predetermined fix. -/
def cursorDetect (line : Str) : List CRPat :=
  if (reSearch crSimpleInline line).isSome && !(reSearch crComplexMark line).isSome then
    []
  else
    (finditer cr1 line).map
      (mkCR "nested_brackets_double_path" line
        (fun c => canonicalLink (capD c 2) (capD c 2))) ++
    ((finditer cr2 line).filter
      (fun m => !litMatch "[".toList ((line.drop m.1).take (m.2.1 - m.1)))).map
      (mkCR "mixed_text_embedded_link" line
        (fun c => canonicalLink (capD c 2) (capD c 3))) ++
    (finditer cr3 line).map
      (mkCR "complex_bracket_backtick" line
        (fun c => canonicalLink (capD c 1) (capD c 2))) ++
    (finditer cr4 line).map
      (mkCR "double_square_brackets" line
        (fun c => canonicalLink (capD c 1) (capD c 2))) ++
    (finditer cr5 line).map
      (mkCR "backtick_bracket_combo" line
        (fun c => canonicalLink (capD c 1) (capD c 2))) ++
    (finditer cr6 line).map
      (mkCR "missing_opening_bracket" line
        (fun c => canonicalLink (capD c 1) (capD c 2))) ++
    (finditer cr7 line).map
      (mkCR "double_parentheses" line
        (fun c => canonicalLink (capD c 1) (capD c 1))) ++
    (finditer cr8 line).map
      (mkCR "absolute_cursor_rules_path" line
        (fun c => canonicalLink (capD c 1) (capD c 2)))

/-- One iteration of the loop of `fix_broken_patterns_in_line` of
`fix_cursor_rules_links.py`: splice the predetermined fix in and record
(type, original, replacement). -/
def crStep (acc : Str × List (String × Str × Str)) (p : CRPat) :
    Str × List (String × Str × Str) :=
  (spliceStr acc.1 p.start p.stop p.fix, acc.2 ++ [(p.ptype, p.mtext, p.fix)])

/-- `fix_broken_patterns_in_line` of `fix_cursor_rules_links.py`: sort the
patterns by descending start and splice each predetermined fix in; the
registry argument is never consulted. -/
def cursorFix (line : Str) (ps : List CRPat) (_m : AList) :
    Str × List (String × Str × Str) :=
  if ps.isEmpty then (line, [])
  else (sortDesc (fun p => p.start) ps).foldl crStep (line, [])

/-- The per-line body of `process_file` of `fix_cursor_rules_links.py`:
detect on `line.rstrip('\n')`; when patterns exist, emit the fixed line with
`'\n'` appended, else the original line. -/
def cursorProcessLine (m : AList) (l : Str) : Str :=
  let ps := cursorDetect (rstripNl l)
  if ps.isEmpty then l
  else (cursorFix (rstripNl l) ps m).1 ++ "\n".toList

/-- `process_file` of `fix_cursor_rules_links.py` on in-memory content:
(whether the file is written back, the content on disk afterwards). -/
def cursorProcessFile (lines : List Str) (m : AList) : Bool × List Str :=
  let modified := lines.any (fun l => !(cursorDetect (rstripNl l)).isEmpty)
  if modified then (true, lines.map (cursorProcessLine m)) else (false, lines)

/-- One line of `load_file_mappings` of `fix_cursor_rules_links.py`: split on
the first `' : '`, strip both parts, map the filename to the full link text,
and for a `.mdc` filename also map the extensionless base name. -/
def cursorLoadLine (m : AList) (l : Str) : AList :=
  if containsSub " : ".toList l then
    match pySplit1 " : ".toList l with
    | some (a, b) =>
      let f := pyStrip a
      let v := pyStrip b
      let m' := insertA m f v
      if endsWithS ".mdc".toList f then insertA m' (f.take (f.length - 4)) v else m'
    | none => m
  else m

/-- `load_file_mappings` of `fix_cursor_rules_links.py` on the whole file
content (`none` models a missing file). -/
def cursorLoad : Option Str → AList
  | none => []
  | some c => (splitNl (pyStrip c)).foldl cursorLoadLine []

/-! ### Auxiliary notions used by the statements -/

/-- One broken-link site on a line, for stating offset safety: the detected
pattern record, the matched text it spans, the canonical path its filename
resolves to, and the untouched segment that follows it. -/
structure Site where
  pat : FBPat
  mtext : Str
  path : Str
  seg : Str

/-- The sites decompose the line consistently: starting at offset `pos`,
each site's span is exactly its matched text, spans are nonempty, and the
next site starts after the following untouched segment. -/
def chainFBb (pos : Nat) : List Site → Bool
  | [] => true
  | s :: rest =>
    (s.pat.start == pos) && (s.pat.stop == pos + s.mtext.length) &&
    !s.mtext.isEmpty && chainFBb (pos + s.mtext.length + s.seg.length) rest

/-- The part of the line after the leading segment, before any rewriting. -/
def flatOrig (l : List Site) : Str := l.flatMap (fun s => s.mtext ++ s.seg)

/-- The same part of the line after every site is replaced by its canonical
`[filename](path)` form. -/
def flatFixed (l : List Site) : Str :=
  l.flatMap (fun s => canonicalLink s.pat.key s.path ++ s.seg)

/-- A registry line that `load_file_mappings` of `fix_broken_links.py`
actually turns into an entry. -/
def fbLineParses (l : Str) : Bool :=
  let l' := pyStrip l
  containsSub " : [".toList l' && containsSub "](".toList l' &&
    (match reMatch registryRE l' with
     | some mc => (capGet mc.2 1).isSome && (capGet mc.2 3).isSome
     | none => false)

instance : IsAntisymm FBPat (fun a b => b.start < a.start) :=
  ⟨fun _ _ h h' => absurd h' (Nat.lt_asymm h)⟩

/-! ## Helper lemmas -/

theorem reSub_eq_self (r : RE) (t : List Tmpl) (s : Str) (h : reSearch r s = none) :
    reSub r t s = s := by
  have : reSub r t s = subAux r t s 0 (s.length + 1) := rfl
  rw [this, subAux]
  simp only [Nat.sub_zero]
  rw [show searchFrom r s 0 (s.length + 1) = reSearch r s from rfl, h]
  rfl

theorem insDesc_perm {α : Type} (key : α → Nat) (x : α) (l : List α) :
    (insDesc key x l).Perm (x :: l) := by
  induction l with
  | nil => simp [insDesc]
  | cons y t ih =>
    by_cases h : key y < key x
    · simp [insDesc, h]
    · rw [insDesc, if_neg h]
      exact (ih.cons y).trans (List.Perm.swap x y t)

theorem sortDesc_foldl_perm {α : Type} (key : α → Nat) (l acc : List α) :
    (l.foldl (fun a x => insDesc key x a) acc).Perm (l.reverse ++ acc) := by
  induction l generalizing acc with
  | nil => simp
  | cons x t ih =>
    have h1 := ih (insDesc key x acc)
    have h2 : (t.reverse ++ insDesc key x acc).Perm (t.reverse ++ (x :: acc)) :=
      List.Perm.append_left _ (insDesc_perm key x acc)
    simpa [List.append_assoc] using h1.trans h2

theorem sortDesc_perm {α : Type} (key : α → Nat) (l : List α) :
    (sortDesc key l).Perm l := by
  have h := sortDesc_foldl_perm key l []
  rw [List.append_nil] at h
  exact (sortDesc.eq_def key l ▸ h).trans l.reverse_perm

theorem mem_sortDesc {α : Type} {key : α → Nat} {l : List α} {x : α}
    (h : x ∈ sortDesc key l) : x ∈ l :=
  (sortDesc_perm key l).mem_iff.mp h

theorem allOfMap {α β : Type} (f : α → β) (l : List α) (p : β → Bool) :
    (l.map f).all p = l.all (fun x => p (f x)) := by
  induction l with
  | nil => rfl
  | cons x t ih => simp [ih]

/-! ## C1: idempotence of the repair pass -/

set_option maxRecDepth 100000

/-- C1 (counterexample): the repair pass of `fix_paths.py` / `final_fix.py` is
not idempotent.  On the line `[a.mdc](a.mdc)` a second application of the
rewrite changes the output of the first again (pattern 2 matches its own
corrected form and prepends the path prefix once more), so rewriting the
output of a previous rewrite is not a no-op. -/
theorem C1_counterexample :
    fix_file_paths (fix_file_paths "[a.mdc](a.mdc)".toList) ≠
      fix_file_paths "[a.mdc](a.mdc)".toList ∧
    fix_all_paths (fix_all_paths "[a.mdc](a.mdc)".toList) ≠
      fix_all_paths "[a.mdc](a.mdc)".toList := by
  constructor <;> decide

/-- C1 (amended): the repair pass is not idempotent in general, because the
corrected form `[f.mdc](agents/.../f.mdc)` itself matches pattern 2 of
`fix_file_paths` and is rewritten again on every pass.  A second rewrite is a
no-op only on content in which neither pattern matches at all; such content is
left unchanged by the pass, and on it the pass is idempotent. -/
theorem C1_rewrite_noop_only_without_matches (content : Str)
    (h1 : reSearch fpPat1 content = none) (h2 : reSearch fpPat2 content = none) :
    fix_file_paths content = content ∧
    fix_file_paths (fix_file_paths content) = fix_file_paths content := by
  have e : fix_file_paths content = content := by
    show reSub fpPat2 fpTmpl2 (reSub fpPat2 fpTmpl2 (reSub fpPat1 fpTmpl1 content)) = content
    rw [reSub_eq_self _ _ _ h1, reSub_eq_self _ _ _ h2, reSub_eq_self _ _ _ h2]
  exact ⟨e, by rw [e, e]⟩

/-- C1 (witness): the amended statement applied to the pattern-free content
`hello`. -/
theorem C1_witness :
    reSearch fpPat1 "hello".toList = none ∧ reSearch fpPat2 "hello".toList = none ∧
    fix_file_paths "hello".toList = "hello".toList :=
  ⟨by decide, by decide,
   (C1_rewrite_noop_only_without_matches _ (by decide) (by decide)).1⟩

/-! ## C2: registry-miss safety -/

/-- C2 (counterexample): in `fix_cursor_rules_links.py` a detected match whose
filename has no registry entry is still rewritten.  On `[[a.mdc](x)` with an
empty registry, `fix_broken_patterns_in_line` changes the line and records one
fixed pattern, so a missing registry entry does not protect the span. -/
theorem C2_counterexample :
    (cursorFix "[[a.mdc](x)".toList (cursorDetect "[[a.mdc](x)".toList) []).1 ≠
      "[[a.mdc](x)".toList ∧
    ((cursorFix "[[a.mdc](x)".toList (cursorDetect "[[a.mdc](x)".toList) []).2).length
      = 1 := by
  constructor <;> decide

/-- C2 (amended): registry-miss safety holds for `fix_broken_links.py`, whose
`fix_broken_patterns_in_line` checks registry membership before every splice:
when no detected match's filename resolves in the registry, the line is
returned unchanged with a fix count of zero.  The rewriter of
`fix_cursor_rules_links.py`, in contrast, never consults the registry and
rewrites every detected match (see the counterexample). -/
theorem C2_registry_miss_safety (line : Str) (ps : List FBPat) (m : AList)
    (h : ∀ p ∈ ps, lookupA m p.key = none) :
    fixFB line ps m = (line, 0) := by
  unfold fixFB
  have hs : ∀ p ∈ sortDesc (fun p => p.start) ps, lookupA m p.key = none :=
    fun p hp => h p (mem_sortDesc hp)
  generalize sortDesc (fun p => p.start) ps = l at hs
  induction l with
  | nil => rfl
  | cons q t ih =>
    have hq := hs q (by simp)
    rw [List.foldl_cons]
    have hstep : fbStep m (line, 0) q = (line, 0) := by
      unfold fbStep
      rw [hq]
      split <;> rfl
    rw [hstep]
    exact ih (fun p hp => hs p (by simp [hp]))

/-- C2 (witness): the amended statement applied to a one-match line and an
empty registry. -/
theorem C2_witness :
    (∀ p ∈ [FBPat.mk "double_path" "k.mdc".toList 0 1],
      lookupA ([] : AList) p.key = none) ∧
    fixFB "x".toList [FBPat.mk "double_path" "k.mdc".toList 0 1] [] =
      ("x".toList, 0) :=
  ⟨by decide, C2_registry_miss_safety _ _ _ (by decide)⟩

/-! ## C5: preservation of well-formed inline-code link tokens -/

/-- C5 (counterexample): a line containing a well-formed inline-code link
token can still be altered.  The line contains the inline-code token and a
pattern-3 match; with the filename in the registry,
`fix_broken_patterns_in_line` of `fix_broken_links.py` rewrites the line. -/
theorem C5_counterexample :
    (reSearch fbInline "`[a](b)` x [f.mdc](y)](z)".toList).isSome = true ∧
    (fixFB "`[a](b)` x [f.mdc](y)](z)".toList
        (detectFB "`[a](b)` x [f.mdc](y)](z)".toList)
        [("f.mdc".toList, "p".toList)]).1 ≠
      "`[a](b)` x [f.mdc](y)](z)".toList := by
  constructor <;> decide

/-- C5 (amended): the inline-code exclusion protects a line only from the
backtick-involving patterns: in `fix_broken_links.py`, when the inline-code
token is present, every detected pattern is one of patterns 1-5, so the line
can still be altered through those; in `fix_cursor_rules_links.py`, a line
with a simple inline-code token and no complex marker yields no detected
patterns at all and is preserved. -/
theorem C5_inline_code_partial_protection :
    (∀ line : Str, (reSearch fbInline line).isSome = true →
      (detectFB line).all (fun p =>
        (["nested_brackets", "double_path", "double_ending", "mixed_text_link",
          "malformed_path"] : List String).contains p.ptype) = true) ∧
    (∀ line : Str, (reSearch crSimpleInline line).isSome = true →
      (reSearch crComplexMark line).isSome = false →
      cursorDetect line = []) := by
  constructor
  · intro line h
    unfold detectFB
    rw [if_pos h]
    simp only [List.all_append, allOfMap, Bool.and_eq_true]
    refine ⟨⟨⟨⟨?_, ?_⟩, ?_⟩, ?_⟩, ?_⟩ <;>
      exact List.all_eq_true.mpr (fun _ _ => by simp only [mkFB]; decide)
  · intro line h1 h2
    unfold cursorDetect
    rw [if_pos (by rw [h1, h2]; rfl)]

/-- C5 (witness): the amended statement applied to a line that consists of a
single well-formed inline-code link token. -/
theorem C5_witness :
    (reSearch fbInline "`[a](b)`".toList).isSome = true ∧
    (detectFB "`[a](b)`".toList).all (fun p =>
      (["nested_brackets", "double_path", "double_ending", "mixed_text_link",
        "malformed_path"] : List String).contains p.ptype) = true ∧
    cursorDetect "`[a](b)`".toList = [] :=
  ⟨by decide,
   C5_inline_code_partial_protection.1 _ (by decide),
   C5_inline_code_partial_protection.2 _ (by decide) (by decide)⟩

/-! ## C6: registry-load robustness -/

/-- C6 (counterexample): with a missing registry source the loader returns the
empty mapping, but `main` of `fix_broken_links.py` then refuses to proceed —
the run stops instead of continuing with registry-based rewrites disabled. -/
theorem C6_counterexample :
    loadFB none = [] ∧ mainProceedsFB (loadFB none) = false := ⟨rfl, rfl⟩

/-- Lines that do not parse leave the mapping untouched. -/
theorem loadFBLine_skip (l : Str) (h : fbLineParses l = false) (m : AList) :
    loadFBLine m l = m := by
  simp only [fbLineParses] at h
  cases hm : reMatch registryRE (pyStrip l) with
  | none =>
    simp only [loadFBLine, hm]
    split <;> rfl
  | some mc =>
    rw [hm] at h
    simp only [loadFBLine, hm]
    split
    · next hcc =>
      rw [Bool.and_eq_true] at hcc
      simp only [hcc.1, hcc.2, Bool.true_and] at h
      cases hg1 : capGet mc.2 1 with
      | none => simp [hg1]
      | some f =>
        cases hg3 : capGet mc.2 3 with
        | none => simp [hg1, hg3]
        | some p => rw [hg1, hg3] at h; simp at h
    · rfl

/-- C6 (amended): loading the registry never fails the run — a missing source
yields the empty mapping and lines not matching the expected shape are
skipped silently, so the mapping equals the one loaded from the well-formed
lines alone; however, when the resulting mapping is empty, `main` prints an
error and returns instead of continuing. -/
theorem C6_load_robust :
    loadFB none = [] ∧
    (∀ lines : List Str,
      loadFB (some lines) = loadFB (some (lines.filter fbLineParses))) ∧
    (∀ m : AList, mainProceedsFB m = true ↔ m ≠ []) := by
  refine ⟨rfl, ?_, ?_⟩
  · intro lines
    show lines.foldl loadFBLine [] = (lines.filter fbLineParses).foldl loadFBLine []
    generalize ([] : AList) = m
    induction lines generalizing m with
    | nil => rfl
    | cons l t ih =>
      by_cases h : fbLineParses l = true
      · rw [List.foldl_cons, List.filter_cons_of_pos h, List.foldl_cons]
        exact ih _
      · rw [List.foldl_cons, List.filter_cons_of_neg (by simpa using h),
            loadFBLine_skip l (by simpa using h)]
        exact ih _
  · intro m
    cases m <;> simp [mainProceedsFB]

/-- C6 (witness): the amended statement applied to a two-line registry whose
first line is garbage, and to the empty mapping. -/
theorem C6_witness :
    loadFB (some ["garbage".toList, "a.mdc : [a.mdc](p)".toList]) =
      loadFB (some (["garbage".toList, "a.mdc : [a.mdc](p)".toList].filter
        fbLineParses)) ∧
    (mainProceedsFB [] = true ↔ ([] : AList) ≠ []) :=
  ⟨C6_load_robust.2.1 _, C6_load_robust.2.2 []⟩

/-! ## C4: write-back gating -/

theorem fbFold_snd_mono (m : AList) (l : List FBPat) (acc : Str × Nat) :
    acc.2 ≤ (l.foldl (fbStep m) acc).2 := by
  induction l generalizing acc with
  | nil => exact Nat.le_refl _
  | cons p t ih =>
    rw [List.foldl_cons]
    refine Nat.le_trans ?_ (ih (fbStep m acc p))
    unfold fbStep
    split
    · split
      · exact Nat.le_succ _
      · exact Nat.le_refl _
    · exact Nat.le_refl _

theorem fbStep_cases (m : AList) (acc : Str × Nat) (p : FBPat) :
    fbStep m acc p = acc ∨
    ∃ cp, fbStep m acc p =
      (spliceStr acc.1 p.start p.stop (canonicalLink p.key cp), acc.2 + 1) := by
  unfold fbStep
  split
  · cases h : lookupA m p.key with
    | none => exact Or.inl rfl
    | some cp => exact Or.inr ⟨cp, rfl⟩
  · exact Or.inl rfl

theorem fbFold_fst_of_snd_eq (m : AList) (l : List FBPat) (acc : Str × Nat)
    (h : (l.foldl (fbStep m) acc).2 = acc.2) : (l.foldl (fbStep m) acc).1 = acc.1 := by
  induction l generalizing acc with
  | nil => rfl
  | cons p t ih =>
    rw [List.foldl_cons] at h ⊢
    rcases fbStep_cases m acc p with hc | ⟨cp, hc⟩
    · rw [hc] at h ⊢
      exact ih acc h
    · exfalso
      have h1 := fbFold_snd_mono m t
        (spliceStr acc.1 p.start p.stop (canonicalLink p.key cp), acc.2 + 1)
      rw [hc] at h
      simp only [Prod.snd] at h1
      omega

/-- With a fix count of zero, `fix_broken_patterns_in_line` returns the line
unchanged. -/
theorem fixFB_zero_unchanged (line : Str) (ps : List FBPat) (m : AList)
    (h : (fixFB line ps m).2 = 0) : (fixFB line ps m).1 = line :=
  fbFold_fst_of_snd_eq m _ (line, 0) h

/-- `process_file` of `fix_broken_links.py` opens the file for writing exactly
when its returned fix count is positive. -/
theorem processFileFB_written_iff (lines : List Str) (m : AList) :
    (processFileFB lines m).1 = true ↔ 0 < (processFileFB lines m).2.2 := by
  simp only [processFileFB]
  split
  · simp
  · split
    · next h => simpa using h
    · simp

/-- When `process_file` of `fix_broken_links.py` reports zero fixes, the
content on disk afterwards is the original content. -/
theorem processFileFB_zero_keeps (lines : List Str) (m : AList)
    (h : (processFileFB lines m).2.2 = 0) : (processFileFB lines m).2.1 = lines := by
  simp only [processFileFB] at h ⊢
  split at h
  · next hc => rw [if_pos hc]
  · next hc =>
    split at h
    · next hf => exact absurd h (ne_of_gt hf)
    · next hf => rw [if_neg hc, if_neg hf]

/-- C4 (counterexample): a file can be opened for writing although its
rewritten content is byte-for-byte identical to the original.  On this file
the only match is pattern 2, the registry maps `a.mdc` to the very path in
the broken line, so the one counted fix splices in exactly the matched text:
the content is unchanged but the write branch is taken. -/
theorem C4_counterexample :
    (processFileFB ["[a.mdc](.cursor/rules/.cursor/rules/a.mdc)".toList]
        [("a.mdc".toList, ".cursor/rules/.cursor/rules/a.mdc".toList)]).1 = true ∧
    (processFileFB ["[a.mdc](.cursor/rules/.cursor/rules/a.mdc)".toList]
        [("a.mdc".toList, ".cursor/rules/.cursor/rules/a.mdc".toList)]).2.1 =
      ["[a.mdc](.cursor/rules/.cursor/rules/a.mdc)".toList] := by
  constructor <;> decide

/-- C4 (amended): `process_file` of `fix_broken_links.py` gates the write on
the fix count, not on a byte-for-byte content comparison: the file is opened
for writing if and only if at least one fix was counted.  A file with zero
counted fixes keeps its original content (per line, a zero fix count leaves
the line unchanged), but a counted fix whose replacement equals the matched
text triggers a write of identical content (see the counterexample). -/
theorem C4_write_gating (lines : List Str) (m : AList) :
    ((processFileFB lines m).1 = true ↔ 0 < (processFileFB lines m).2.2) ∧
    ((processFileFB lines m).2.2 = 0 → (processFileFB lines m).2.1 = lines) ∧
    (∀ l : Str, (fixFB l (detectFB l) m).2 = 0 → (fixFB l (detectFB l) m).1 = l) :=
  ⟨processFileFB_written_iff lines m,
   processFileFB_zero_keeps lines m,
   fun l => fixFB_zero_unchanged l (detectFB l) m⟩

/-- C4 (witness): the amended statement applied to a one-line file with no
broken pattern and the empty registry. -/
theorem C4_witness :
    ((processFileFB ["hello".toList] []).1 = true ↔
      0 < (processFileFB ["hello".toList] []).2.2) ∧
    ((processFileFB ["hello".toList] []).2.2 = 0 →
      (processFileFB ["hello".toList] []).2.1 = ["hello".toList]) :=
  ⟨(C4_write_gating ["hello".toList] []).1, (C4_write_gating ["hello".toList] []).2.1⟩

/-! ## C7: per-file failure isolation -/

theorem runFB_shift (m : AList) (files : List FileOutcome) (acc : Nat × Nat) :
    files.foldl (fun acc f =>
      let fx := perFileFB m f
      (acc.1 + (if fx > 0 then 1 else 0), acc.2 + fx)) acc =
    (acc.1 + (runFB files m).1, acc.2 + (runFB files m).2) := by
  induction files generalizing acc with
  | nil => simp [runFB]
  | cons f t ih =>
    rw [List.foldl_cons, ih]
    have hr : runFB (f :: t) m =
        ((if perFileFB m f > 0 then 1 else 0) + (runFB t m).1,
         perFileFB m f + (runFB t m).2) := by
      unfold runFB
      rw [List.foldl_cons, ih]
      refine Prod.ext ?_ ?_ <;> simp [runFB]
    rw [hr]
    refine Prod.ext ?_ ?_ <;> simp <;> omega

theorem runFB_append (m : AList) (pre post : List FileOutcome) :
    runFB (pre ++ post) m =
      ((runFB pre m).1 + (runFB post m).1, (runFB pre m).2 + (runFB post m).2) := by
  unfold runFB
  rw [List.foldl_append, runFB_shift]
  refine Prod.ext ?_ ?_ <;> simp [runFB]

theorem runFB_cons (m : AList) (f : FileOutcome) (t : List FileOutcome) :
    runFB (f :: t) m =
      ((if 0 < perFileFB m f then 1 else 0) + (runFB t m).1,
       perFileFB m f + (runFB t m).2) := by
  unfold runFB
  rw [List.foldl_cons, runFB_shift]
  refine Prod.ext ?_ ?_ <;> simp [runFB]

/-- A read error makes `process_file` report zero fixes. -/
theorem perFileFB_readError (m : AList) : perFileFB m .readError = 0 := rfl

/-- A write error on a file makes `process_file` report zero fixes for it:
either the write was attempted and failed, or no write was attempted, and a
file that is not written reports zero fixes anyway. -/
theorem perFileFB_writeError (m : AList) (lines : List Str) :
    perFileFB m (.ok lines true) = 0 := by
  show (if (processFileFB lines m).1 && true then 0
        else (processFileFB lines m).2.2) = 0
  cases hw : (processFileFB lines m).1 with
  | true => simp [hw]
  | false =>
    have hiff := processFileFB_written_iff lines m
    rw [hw] at hiff
    simp only [hw, Bool.false_and, Bool.false_eq_true, if_false]
    simp only [Bool.false_eq_true, false_iff, Nat.not_lt, Nat.le_zero] at hiff
    exact hiff

/-- C7: per-file failure isolation in `main` of `fix_broken_links.py`: a file
whose read or write fails contributes zero fixes and zero fixed files, and
the totals over the run decompose file by file — the files before and after
the failing one are all still processed, exactly as they would be alone. -/
theorem C7_per_file_isolation (pre post : List FileOutcome) (f : FileOutcome)
    (m : AList) :
    (runFB (pre ++ f :: post) m).2 =
      (runFB pre m).2 + perFileFB m f + (runFB post m).2 ∧
    (runFB (pre ++ f :: post) m).1 =
      (runFB pre m).1 + (if 0 < perFileFB m f then 1 else 0) + (runFB post m).1 ∧
    perFileFB m .readError = 0 ∧
    (∀ lines : List Str, perFileFB m (.ok lines true) = 0) := by
  have key : runFB (pre ++ f :: post) m =
      ((runFB pre m).1 + (if 0 < perFileFB m f then 1 else 0) + (runFB post m).1,
       (runFB pre m).2 + perFileFB m f + (runFB post m).2) := by
    rw [runFB_append, runFB_cons]
    refine Prod.ext ?_ ?_ <;> simp <;> omega
  refine ⟨?_, ?_, perFileFB_readError m, perFileFB_writeError m⟩
  · rw [key]
  · rw [key]

/-! ## C3: offset safety under rightmost-first rewriting -/

theorem mem_insDesc {α : Type} {key : α → Nat} {x z : α} {l : List α}
    (h : z ∈ insDesc key x l) : z = x ∨ z ∈ l := by
  have := (insDesc_perm key x l).mem_iff.mp h
  simpa using this

theorem insDesc_sorted {α : Type} (key : α → Nat) (x : α) (l : List α)
    (hl : List.Pairwise (fun a b => key b ≤ key a) l) :
    List.Pairwise (fun a b => key b ≤ key a) (insDesc key x l) := by
  induction l with
  | nil => simp [insDesc]
  | cons y t ih =>
    rw [insDesc]
    split
    · next hlt =>
      refine List.Pairwise.cons ?_ hl
      intro z hz
      rcases List.mem_cons.mp hz with rfl | hz
      · exact Nat.le_of_lt hlt
      · exact Nat.le_trans (List.rel_of_pairwise_cons hl hz) (Nat.le_of_lt hlt)
    · next hge =>
      refine List.Pairwise.cons ?_ (ih (List.Pairwise.sublist (List.sublist_cons_self y t) hl))
      intro z hz
      rcases mem_insDesc hz with rfl | hz
      · exact Nat.le_of_not_lt hge
      · exact List.rel_of_pairwise_cons hl hz

theorem sortDesc_sorted {α : Type} (key : α → Nat) (l : List α) :
    List.Pairwise (fun a b => key b ≤ key a) (sortDesc key l) := by
  have main : ∀ (l acc : List α), List.Pairwise (fun a b => key b ≤ key a) acc →
      List.Pairwise (fun a b => key b ≤ key a)
        (l.foldl (fun a x => insDesc key x a) acc) := by
    intro l
    induction l with
    | nil => exact fun acc h => h
    | cons x t ih =>
      intro acc hacc
      rw [List.foldl_cons]
      exact ih _ (insDesc_sorted key x acc hacc)
  exact main l [] (by simp)

theorem pairwise_strict_of_le_nodup {α : Type} (key : α → Nat) (l : List α)
    (hle : List.Pairwise (fun a b => key b ≤ key a) l)
    (hnd : (l.map key).Nodup) :
    List.Pairwise (fun a b => key b < key a) l := by
  induction l with
  | nil => exact List.Pairwise.nil
  | cons x t ih =>
    rw [List.map_cons, List.nodup_cons] at hnd
    refine List.Pairwise.cons ?_ (ih (List.Pairwise.sublist (List.sublist_cons_self x t) hle) hnd.2)
    intro z hz
    refine Nat.lt_of_le_of_ne (List.rel_of_pairwise_cons hle hz) ?_
    intro heq
    exact hnd.1 (heq ▸ List.mem_map_of_mem key hz)

/-- Python's stable descending sort agrees with the reversed ascending order
whenever the keys are pairwise distinct. -/
theorem sortDesc_eq_reverse_of_perm (ps asc : List FBPat)
    (hperm : ps.Perm asc)
    (hstrict : List.Pairwise (fun a b => a.start < b.start) asc) :
    sortDesc (fun p => p.start) ps = asc.reverse := by
  refine List.eq_of_perm_of_sorted (r := fun a b => b.start < a.start) ?_ ?_ ?_
  · exact ((sortDesc_perm _ ps).trans hperm).trans asc.reverse_perm.symm
  · have hnd : ((sortDesc (fun p => p.start) ps).map (fun p => p.start)).Nodup := by
      have h1 : List.Pairwise (· < ·) (asc.map (fun p => p.start)) :=
        List.pairwise_map.mpr hstrict
      have h2 : (asc.map (fun p => p.start)).Nodup := h1.imp Nat.ne_of_lt
      exact (((sortDesc_perm _ ps).trans hperm).map (fun p => p.start)).nodup_iff.mpr h2
    exact pairwise_strict_of_le_nodup _ _ (sortDesc_sorted _ ps) hnd
  · exact List.pairwise_reverse.mpr hstrict

theorem chainFBb_le (sites : List Site) (pos : Nat) (h : chainFBb pos sites = true) :
    ∀ s ∈ sites, pos ≤ s.pat.start := by
  induction sites generalizing pos with
  | nil => intro s hs; cases hs
  | cons s t ih =>
    rw [chainFBb, Bool.and_eq_true, Bool.and_eq_true, Bool.and_eq_true] at h
    intro q hq
    rcases List.mem_cons.mp hq with rfl | hq
    · exact Nat.le_of_eq (eq_of_beq h.1.1.1).symm
    · have := ih _ h.2 q hq
      omega

theorem chainFBb_strict (sites : List Site) (pos : Nat)
    (h : chainFBb pos sites = true) :
    List.Pairwise (fun a b => a.start < b.start) (sites.map (fun s => s.pat)) := by
  induction sites generalizing pos with
  | nil => exact List.Pairwise.nil
  | cons s t ih =>
    rw [chainFBb, Bool.and_eq_true, Bool.and_eq_true, Bool.and_eq_true] at h
    rw [List.map_cons]
    refine List.Pairwise.cons ?_ (ih _ h.2)
    intro q hq
    rcases List.mem_map.mp hq with ⟨u, hu, rfl⟩
    have h1 : pos + s.mtext.length + s.seg.length ≤ u.pat.start :=
      chainFBb_le t _ h.2 u hu
    have h2 : s.pat.start = pos := eq_of_beq h.1.1.1
    have h3 : s.mtext.length ≠ 0 := by
      have := h.1.2
      simpa [List.isEmpty_iff, List.length_eq_zero] using this
    omega

theorem fbFold_sites (m : AList) (sites : List Site) (pre : Str) (n : Nat)
    (hchain : chainFBb pre.length sites = true)
    (hres : ∀ s ∈ sites, fbKnownTypes.contains s.pat.ptype = true ∧
      lookupA m s.pat.key = some s.path) :
    (sites.map (fun s => s.pat)).foldr (fun p acc => fbStep m acc p)
      (pre ++ flatOrig sites, n) =
    (pre ++ flatFixed sites, n + sites.length) := by
  induction sites generalizing pre n with
  | nil => simp [flatOrig, flatFixed]
  | cons s t ih =>
    rw [chainFBb, Bool.and_eq_true, Bool.and_eq_true, Bool.and_eq_true] at hchain
    have hstart : s.pat.start = pre.length := eq_of_beq hchain.1.1.1
    have hstop : s.pat.stop = pre.length + s.mtext.length :=
      eq_of_beq hchain.1.1.2
    have hchain' : chainFBb (pre ++ s.mtext ++ s.seg).length t = true := by
      have := hchain.2
      simpa [Nat.add_assoc] using this
    rw [List.map_cons, List.foldr_cons]
    have horig : pre ++ flatOrig (s :: t) =
        (pre ++ s.mtext ++ s.seg) ++ flatOrig t := by
      simp [flatOrig, List.append_assoc]
    rw [horig, ih (pre ++ s.mtext ++ s.seg) n hchain'
      (fun u hu => hres u (List.mem_cons_of_mem s hu))]
    have hk := hres s (List.mem_cons_self s t)
    unfold fbStep
    rw [hk.1, hk.2]
    simp only [if_true]
    have hsplice :
        spliceStr ((pre ++ s.mtext ++ s.seg) ++ flatFixed t) s.pat.start s.pat.stop
          (canonicalLink s.pat.key s.path) =
        pre ++ flatFixed (s :: t) := by
      unfold spliceStr
      rw [hstart, hstop]
      have e1 : ((pre ++ s.mtext ++ s.seg) ++ flatFixed t) =
          pre ++ (s.mtext ++ (s.seg ++ flatFixed t)) := by
        simp [List.append_assoc]
      have e2 : ((pre ++ s.mtext ++ s.seg) ++ flatFixed t) =
          (pre ++ s.mtext) ++ (s.seg ++ flatFixed t) := by
        simp [List.append_assoc]
      rw [show (pre ++ s.mtext ++ s.seg ++ flatFixed t).take pre.length = pre by
            rw [e1]; exact List.take_left pre _,
          show (pre ++ s.mtext ++ s.seg ++ flatFixed t).drop
              (pre.length + s.mtext.length) = s.seg ++ flatFixed t by
            rw [e2, show pre.length + s.mtext.length = (pre ++ s.mtext).length by simp]
            exact List.drop_left _ _]
      simp [flatFixed, List.append_assoc]
    rw [hsplice]
    simp [Nat.add_assoc, Nat.add_comm 1 t.length]

/-- C3 (counterexample): the claim also covers the rewriter of
`fix_cursor_rules_links.py`, which does not replace resolvable matches by
canonical registry forms.  On the line `[[b.mdc](wrong.mdc)` exactly one
broken shape is detected (pattern 4, spanning the whole line) and its
filename `b.mdc` resolves in the registry to `docs/b.mdc`, yet
`fix_broken_patterns_in_line` splices in the predetermined fix built from
the matched text: the result is `[b.mdc](wrong.mdc)`, not the canonical
`[b.mdc](docs/b.mdc)`, and the registry path does not occur in the output
at all. -/
theorem C3_counterexample :
    ((cursorDetect "[[b.mdc](wrong.mdc)".toList).map
        (fun p => (p.ptype, p.mtext, p.start, p.stop)) =
      [("double_square_brackets", "[[b.mdc](wrong.mdc)".toList, 0, 19)]) ∧
    lookupA [("b.mdc".toList, "docs/b.mdc".toList)] "b.mdc".toList =
      some "docs/b.mdc".toList ∧
    (cursorFix "[[b.mdc](wrong.mdc)".toList
        (cursorDetect "[[b.mdc](wrong.mdc)".toList)
        [("b.mdc".toList, "docs/b.mdc".toList)]).1 =
      "[b.mdc](wrong.mdc)".toList ∧
    (cursorFix "[[b.mdc](wrong.mdc)".toList
        (cursorDetect "[[b.mdc](wrong.mdc)".toList)
        [("b.mdc".toList, "docs/b.mdc".toList)]).1 ≠
      "[b.mdc](docs/b.mdc)".toList ∧
    containsSub "docs/b.mdc".toList
      (cursorFix "[[b.mdc](wrong.mdc)".toList
        (cursorDetect "[[b.mdc](wrong.mdc)".toList)
        [("b.mdc".toList, "docs/b.mdc".toList)]).1 = false := by
  decide

/-- C3 (amended): offset safety under rightmost-first rewriting holds in
`fix_broken_links.py`.  For a line that decomposes into a leading segment and
non-overlapping broken-link sites (each with its matched text and a following
untouched segment), when every site's filename resolves in the registry,
`fix_broken_patterns_in_line` replaces exactly the matched spans by their
canonical `[filename](path)` forms, leaves every segment between matches
unchanged, and counts one fix per site — for any discovery order of the
matches handed to it.  The rewriter of `fix_cursor_rules_links.py` shares
the descending-start splicing discipline but splices predetermined fixes
computed from the matched text, never canonical registry forms. -/
theorem C3_offset_safety (seg0 : Str) (sites : List Site) (ps : List FBPat)
    (m : AList)
    (hperm : ps.Perm (sites.map (fun s => s.pat)))
    (hchain : chainFBb seg0.length sites = true)
    (hres : ∀ s ∈ sites, fbKnownTypes.contains s.pat.ptype = true ∧
      lookupA m s.pat.key = some s.path) :
    fixFB (seg0 ++ flatOrig sites) ps m =
      (seg0 ++ flatFixed sites, sites.length) := by
  unfold fixFB
  rw [sortDesc_eq_reverse_of_perm ps (sites.map (fun s => s.pat)) hperm
    (chainFBb_strict sites _ hchain)]
  rw [List.foldl_reverse]
  have := fbFold_sites m sites seg0 0 hchain hres
  simpa using this

/-- C3 (witness): offset safety applied to the line `x [[a.mdc](u) y` with a
single site. -/
theorem C3_witness :
    ([FBPat.mk "double_square_bracket" "a.mdc".toList 2 13].Perm
      (([Site.mk (FBPat.mk "double_square_bracket" "a.mdc".toList 2 13)
        "[[a.mdc](u)".toList "p".toList " y".toList]).map (fun s => s.pat))) ∧
    fixFB "x [[a.mdc](u) y".toList
      [FBPat.mk "double_square_bracket" "a.mdc".toList 2 13]
      [("a.mdc".toList, "p".toList)] = ("x [a.mdc](p) y".toList, 1) := by
  refine ⟨by decide, ?_⟩
  have h := C3_offset_safety "x ".toList
    [Site.mk (FBPat.mk "double_square_bracket" "a.mdc".toList 2 13)
      "[[a.mdc](u)".toList "p".toList " y".toList]
    [FBPat.mk "double_square_bracket" "a.mdc".toList 2 13]
    [("a.mdc".toList, "p".toList)]
    (by decide) (by decide) (by decide)
  simpa using h

/-! ## String-matching helper lemmas -/

theorem litMatch_append (cs a b : Str) (h : cs.length ≤ a.length) :
    litMatch cs (a ++ b) = litMatch cs a := by
  induction cs generalizing a with
  | nil => rfl
  | cons c ct ih =>
    cases a with
    | nil => simp at h
    | cons x xs =>
      rw [List.cons_append, litMatch, litMatch, ih xs (by simpa using h)]

theorem litMatch_self_append (p r : Str) : litMatch p (p ++ r) = true := by
  induction p with
  | nil => rfl
  | cons c t ih => rw [List.cons_append, litMatch]; simp [ih]

theorem containsSub_of_drop (pat s : Str) (k : Nat)
    (h : litMatch pat (s.drop k) = true) : containsSub pat s = true := by
  induction s generalizing k with
  | nil => simpa [containsSub] using h
  | cons c t ih =>
    cases k with
    | zero => rw [containsSub]; simp only [List.drop_zero] at h; simp [h]
    | succ k' =>
      rw [containsSub]
      simp only [Bool.or_eq_true]
      exact Or.inr (ih k' h)

theorem pySplit1_of_litMatch (sep s : Str) (hne : s ≠ []) (h : litMatch sep s = true) :
    pySplit1 sep s = some ([], s.drop sep.length) := by
  cases s with
  | nil => exact absurd rfl hne
  | cons c t => rw [pySplit1, if_pos h]

theorem pySplit1_first (sep f v : Str) (hsep : sep ≠ [])
    (h : ∀ k, k < f.length → litMatch sep ((f ++ sep).drop k) = false) :
    pySplit1 sep (f ++ sep ++ v) = some (f, v) := by
  induction f with
  | nil =>
    rw [List.nil_append, pySplit1_of_litMatch sep (sep ++ v)
      (by cases sep with | nil => exact absurd rfl hsep | cons c t => simp)
      (litMatch_self_append sep v)]
    rw [List.drop_left]
  | cons c t ih =>
    have hlit : litMatch sep ((c :: t) ++ sep ++ v) = false := by
      rw [List.append_assoc, ← List.append_assoc,
        litMatch_append _ _ _ (by simp only [List.length_append, List.length_cons]; omega)]
      have := h 0 (by simp)
      simpa using this
    rw [show (c :: t) ++ sep ++ v = c :: (t ++ sep ++ v) by simp, pySplit1,
      if_neg (by rw [show c :: (t ++ sep ++ v) = (c :: t) ++ sep ++ v by simp, hlit]
                 exact Bool.false_ne_true)]
    rw [ih (fun k hk => h (k + 1) (by simpa using Nat.succ_lt_succ hk))]

theorem findA_cons (e : Str × Str) (t : AList) (k : Str) :
    lookupA (e :: t) k = if e.1 == k then some e.2 else lookupA t k := by
  unfold lookupA
  cases h : (e.1 == k) <;> simp [List.find?, h]

theorem lookupA_insertA_self (m : AList) (k v : Str) :
    lookupA (insertA m k v) k = some v := by
  induction m with
  | nil =>
    show lookupA [(k, v)] k = some v
    rw [findA_cons]
    simp
  | cons e t ih =>
    rw [insertA]
    split
    · rw [findA_cons]
      simp
    · next he =>
      rw [findA_cons, if_neg he]
      exact ih

theorem lookupA_insertA_ne (m : AList) (k v k' : Str) (hne : k' ≠ k) :
    lookupA (insertA m k v) k' = lookupA m k' := by
  induction m with
  | nil =>
    show lookupA [(k, v)] k' = lookupA [] k'
    rw [findA_cons, if_neg (by simpa using fun h => hne h.symm)]
  | cons e t ih =>
    rw [insertA]
    split
    · next he =>
      have he' : e.1 = k := by simpa using he
      rw [findA_cons, findA_cons,
        if_neg (by simpa using fun h => hne h.symm),
        if_neg (by simp only [he']; simpa using fun h => hne h.symm)]
    · rw [findA_cons, findA_cons]
      by_cases hek : (e.1 == k') = true
      · rw [if_pos hek, if_pos hek]
      · rw [if_neg hek, if_neg hek]
        exact ih

/-! ## C9: extensionless alias in the cursor-rules registry loader -/

/-- C9: for a well-formed registry line whose filename ends in `.mdc`,
`load_file_mappings` of `fix_cursor_rules_links.py` inserts two entries with
the same value — the full filename and the filename with the extension
stripped — so lookup succeeds on both. -/
theorem C9_extensionless_alias (m : AList) (f v : Str)
    (hocc : ∀ k, k < f.length →
      litMatch " : ".toList ((f ++ " : ".toList).drop k) = false)
    (hsf : pyStrip f = f) (hsv : pyStrip v = v)
    (hmdc : endsWithS ".mdc".toList f = true) :
    lookupA (cursorLoadLine m (f ++ " : ".toList ++ v)) f = some v ∧
    lookupA (cursorLoadLine m (f ++ " : ".toList ++ v)) (f.take (f.length - 4)) =
      some v := by
  have hcontains : containsSub " : ".toList (f ++ " : ".toList ++ v) = true := by
    apply containsSub_of_drop _ _ f.length
    rw [List.append_assoc, List.drop_left]
    exact litMatch_self_append _ _
  have hsplit : pySplit1 " : ".toList (f ++ " : ".toList ++ v) = some (f, v) :=
    pySplit1_first _ _ _ (by decide) hocc
  have hmain : cursorLoadLine m (f ++ " : ".toList ++ v) =
      insertA (insertA m f v) (f.take (f.length - 4)) v := by
    simp only [cursorLoadLine, hcontains, hsplit, hsf, hsv, hmdc, if_true]
  have hlen : (".mdc".toList).length ≤ f.length := by
    unfold endsWithS at hmdc
    rw [Bool.and_eq_true] at hmdc
    exact of_decide_eq_true hmdc.1
  have hlen4 : 4 ≤ f.length := by simpa using hlen
  have hne : f ≠ f.take (f.length - 4) := by
    intro he
    have := congrArg List.length he
    rw [List.length_take] at this
    omega
  refine ⟨?_, ?_⟩
  · rw [hmain, lookupA_insertA_ne _ _ _ _ hne]
    exact lookupA_insertA_self m f v
  · rw [hmain]
    exact lookupA_insertA_self _ _ _

/-- C9 (witness): the alias insertion applied to the line
`a.mdc : [a.mdc](x)` on the empty mapping. -/
theorem C9_witness :
    lookupA (cursorLoadLine []
      ("a.mdc".toList ++ " : ".toList ++ "[a.mdc](x)".toList)) "a.mdc".toList =
      some "[a.mdc](x)".toList ∧
    lookupA (cursorLoadLine []
      ("a.mdc".toList ++ " : ".toList ++ "[a.mdc](x)".toList))
        ("a.mdc".toList.take ("a.mdc".toList.length - 4)) =
      some "[a.mdc](x)".toList :=
  C9_extensionless_alias [] "a.mdc".toList "[a.mdc](x)".toList
    (by decide) (by decide) (by decide) (by decide)

/-! ## C10: newline normalization on fixed lines -/

theorem dropWhile_replicate_append (p : Char → Bool) (k : Nat) (a : Char) (l : Str)
    (hp : p a = true) :
    (List.replicate k a ++ l).dropWhile p = l.dropWhile p := by
  induction k with
  | zero => rfl
  | succ n ih => simp [List.replicate_succ, List.dropWhile_cons, hp, ih]

theorem rstripNl_core (core : Str) (k : Nat) (h : '\n' ∉ core) :
    rstripNl (core ++ List.replicate k '\n') = core := by
  unfold rstripNl
  rw [List.reverse_append, List.reverse_replicate,
    dropWhile_replicate_append _ _ _ _ (by decide)]
  cases hc : core.reverse with
  | nil =>
    have hcore : core = [] := by simpa using congrArg List.reverse hc
    simp [hcore]
  | cons c t =>
    have hcmem : c ∈ core := by
      have : c ∈ core.reverse := by rw [hc]; exact List.mem_cons_self c t
      simpa using this
    have hcne : (c == '\n') = false := by
      simp only [beq_eq_false_iff_ne]
      intro he
      exact h (he ▸ hcmem)
    rw [List.dropWhile_cons, hcne, if_neg (show ¬(false = true) by simp)]
    rw [← hc, List.reverse_reverse]

theorem mem_of_headq {α : Type} {l : List α} {a : α} (h : l.head? = some a) :
    a ∈ l := by
  cases l with
  | nil => simp at h
  | cons x t =>
    simp only [List.head?_cons, Option.some.injEq] at h
    exact h ▸ List.mem_cons_self x t

/-- Every captured group text consists of characters of the subject string. -/
theorem mrun_caps_chars (r : RE) (s : Str) :
    ∀ (pos : Nat), ∀ ec ∈ mrun r s pos, ∀ it ∈ ec.2, ∀ c ∈ it.2, c ∈ s := by
  induction r with
  | eps =>
    intro pos ec hec it hit c _
    simp only [mrun, List.mem_singleton] at hec
    subst hec
    simp at hit
  | lit cs =>
    intro pos ec hec it hit c _
    simp only [mrun] at hec
    split at hec
    · simp only [List.mem_singleton] at hec
      subst hec
      simp at hit
    · simp at hec
  | cls neg cs lo hi laz =>
    intro pos ec hec it hit c _
    simp only [mrun] at hec
    split at hec
    · obtain ⟨j, _, rfl⟩ := List.mem_map.mp hec
      simp at hit
    · simp at hec
  | seq a b iha ihb =>
    intro pos ec hec it hit c hc
    simp only [mrun] at hec
    rw [List.mem_flatMap] at hec
    obtain ⟨pc, hpc, hec⟩ := hec
    obtain ⟨qc, hqc, rfl⟩ := List.mem_map.mp hec
    rcases List.mem_append.mp hit with hmem | hmem
    · exact iha pos pc hpc it hmem c hc
    · exact ihb pc.1 qc hqc it hmem c hc
  | alt a b iha ihb =>
    intro pos ec hec it hit c hc
    simp only [mrun] at hec
    rcases List.mem_append.mp hec with hmem | hmem
    · exact iha pos ec hmem it hit c hc
    · exact ihb pos ec hmem it hit c hc
  | group i rr ihr =>
    intro pos ec hec it hit c hc
    simp only [mrun] at hec
    obtain ⟨pc, hpc, rfl⟩ := List.mem_map.mp hec
    rcases List.mem_cons.mp hit with rfl | hmem
    · have h1 : c ∈ (s.drop pos) := List.take_subset _ _ hc
      exact List.drop_subset _ _ h1
    · exact ihr pos pc hpc it hmem c hc
  | nlb ch =>
    intro pos ec hec it hit c _
    cases pos with
    | zero =>
      simp only [mrun, List.mem_singleton] at hec
      subst hec
      simp at hit
    | succ q =>
      simp only [mrun] at hec
      split at hec
      · simp at hec
      · simp only [List.mem_singleton] at hec
        subst hec
        simp at hit
  | nla ch =>
    intro pos ec hec it hit c _
    simp only [mrun] at hec
    split at hec
    · simp at hec
    · simp only [List.mem_singleton] at hec
      subst hec
      simp at hit

theorem searchFrom_mem (r : RE) (s : Str) :
    ∀ (fuel pos st en : Nat) (caps : List (Nat × Str)),
      searchFrom r s pos fuel = some (st, en, caps) → (en, caps) ∈ mrun r s st := by
  intro fuel
  induction fuel with
  | zero => intro pos st en caps h; simp [searchFrom] at h
  | succ n ih =>
    intro pos st en caps h
    rw [searchFrom] at h
    split at h
    · next e cp hm =>
      simp only [Option.some.injEq, Prod.mk.injEq] at h
      obtain ⟨rfl, rfl, rfl⟩ := h
      exact mem_of_headq hm
    · split at h
      · exact ih _ _ _ _ h
      · simp at h

theorem finditer_mem (r : RE) (s : Str) :
    ∀ (fuel pos : Nat), ∀ mm ∈ finditerAux r s pos fuel,
      (mm.2.1, mm.2.2) ∈ mrun r s mm.1 := by
  intro fuel
  induction fuel with
  | zero => intro pos mm h; simp [finditerAux] at h
  | succ n ih =>
    intro pos mm h
    rw [finditerAux] at h
    cases hs : searchFrom r s pos (s.length + 1 - pos) with
    | none => rw [hs] at h; simp at h
    | some v =>
      obtain ⟨st, en, caps⟩ := v
      rw [hs] at h
      rcases List.mem_cons.mp h with rfl | hmem
      · exact searchFrom_mem r s _ _ _ _ _ hs
      · exact ih _ mm hmem

theorem capD_chars (r : RE) (s : Str) (pos e : Nat) (caps : List (Nat × Str))
    (hm : (e, caps) ∈ mrun r s pos) (i : Nat) :
    ∀ c ∈ capD caps i, c ∈ s := by
  intro c hc
  unfold capD capGet at hc
  cases hf : caps.find? (fun x => x.1 == i) with
  | none => rw [hf] at hc; simp at hc
  | some it =>
    rw [hf] at hc
    simp at hc
    exact mrun_caps_chars r s pos (e, caps) hm it (List.mem_of_find?_eq_some hf) c hc

theorem canonicalLink_chars (f p : Str) (c : Char) (hc : c ∈ canonicalLink f p) :
    c ∈ f ∨ c ∈ p ∨ c ∈ ("[]()".toList) := by
  unfold canonicalLink at hc
  rw [show "[".toList = ['['] from rfl, show "](".toList = [']', '('] from rfl,
    show ")".toList = [')'] from rfl] at hc
  rw [show "[]()".toList = ['[', ']', '(', ')'] from rfl]
  simp only [List.mem_append, List.mem_cons, List.not_mem_nil, or_false] at hc ⊢
  tauto

/-- Every replacement string produced by the cursor-rules scanner is built
from characters of the line and the four bracket characters. -/
theorem cursorDetect_fix_chars (line : Str) (p : CRPat) (hp : p ∈ cursorDetect line) :
    ∀ c ∈ p.fix, c ∈ line ∨ c ∈ ("[]()".toList) := by
  intro c hc
  unfold cursorDetect at hp
  split at hp
  · simp at hp
  · simp only [List.mem_append] at hp
    rcases hp with ((((((hp | hp) | hp) | hp) | hp) | hp) | hp) | hp
    all_goals
      first
      | (obtain ⟨mm, hmm, rfl⟩ := List.mem_map.mp hp
         simp only [mkCR] at hc
         rcases canonicalLink_chars _ _ c hc with h | h | h
         · exact Or.inl (capD_chars _ line mm.1 mm.2.1 mm.2.2
             (finditer_mem _ line _ 0 mm hmm) _ c h)
         · exact Or.inl (capD_chars _ line mm.1 mm.2.1 mm.2.2
             (finditer_mem _ line _ 0 mm hmm) _ c h)
         · exact Or.inr h)
      | (obtain ⟨mm, hmm', rfl⟩ := List.mem_map.mp hp
         have hmm := List.mem_of_mem_filter hmm'
         simp only [mkCR] at hc
         rcases canonicalLink_chars _ _ c hc with h | h | h
         · exact Or.inl (capD_chars _ line mm.1 mm.2.1 mm.2.2
             (finditer_mem _ line _ 0 mm hmm) _ c h)
         · exact Or.inl (capD_chars _ line mm.1 mm.2.1 mm.2.2
             (finditer_mem _ line _ 0 mm hmm) _ c h)
         · exact Or.inr h)

theorem crFold_no_char (ch : Char) (l : List CRPat)
    (acc : Str × List (String × Str × Str))
    (hacc : ch ∉ acc.1) (hl : ∀ p ∈ l, ch ∉ p.fix) :
    ch ∉ (l.foldl crStep acc).1 := by
  induction l generalizing acc with
  | nil => exact hacc
  | cons p t ih =>
    rw [List.foldl_cons]
    refine ih (crStep acc p) ?_ (fun q hq => hl q (List.mem_cons_of_mem p hq))
    unfold crStep spliceStr
    intro hmem
    rcases List.mem_append.mp hmem with hmem | hmem
    · rcases List.mem_append.mp hmem with hmem | hmem
      · exact hacc (List.take_subset _ _ hmem)
      · exact hl p (List.mem_cons_self p t) hmem
    · exact hacc (List.drop_subset _ _ hmem)

theorem cursorFix_no_nl (line : Str) (ps : List CRPat) (m : AList)
    (hline : '\n' ∉ line) (hps : ∀ p ∈ ps, '\n' ∉ p.fix) :
    '\n' ∉ (cursorFix line ps m).1 := by
  unfold cursorFix
  split
  · exact hline
  · exact crFold_no_char '\n' _ _ hline (fun p hp => hps p (mem_sortDesc hp))

/-- C10: newline normalization on fixed lines in `fix_cursor_rules_links.py`.
For a line whose newline characters are exactly its trailing ones — in
particular the last line of a file with no trailing newline at all — on which
at least one broken pattern is detected, `process_file` writes back the fixed
core with exactly one terminating newline appended: the output is the
rewritten core followed by a single `'\n'`, and the rewritten core itself
contains no newline. -/
theorem C10_newline_normalization (m : AList) (core : Str) (k : Nat)
    (hnl : '\n' ∉ core)
    (hdet : cursorDetect core ≠ []) :
    cursorProcessLine m (core ++ List.replicate k '\n') =
      (cursorFix core (cursorDetect core) m).1 ++ ['\n'] ∧
    '\n' ∉ (cursorFix core (cursorDetect core) m).1 := by
  have hr : rstripNl (core ++ List.replicate k '\n') = core := rstripNl_core core k hnl
  constructor
  · unfold cursorProcessLine
    rw [hr, if_neg (by simpa [List.isEmpty_iff] using hdet)]
    rfl
  · refine cursorFix_no_nl core _ m hnl ?_
    intro p hp hmem
    rcases cursorDetect_fix_chars core p hp '\n' hmem with h | h
    · exact hnl h
    · exact absurd h (by decide)

/-- C10 (witness): the last line `[[a.mdc](x)` of a file, with no trailing
newline, is rewritten and gains exactly one newline. -/
theorem C10_witness :
    cursorProcessLine [] ("[[a.mdc](x)".toList ++ List.replicate 0 '\n') =
      (cursorFix "[[a.mdc](x)".toList (cursorDetect "[[a.mdc](x)".toList) []).1 ++
        ['\n'] ∧
    '\n' ∉ (cursorFix "[[a.mdc](x)".toList (cursorDetect "[[a.mdc](x)".toList) []).1 :=
  C10_newline_normalization [] "[[a.mdc](x)".toList 0 (by decide) (by decide)

/-! ## Engine lemmas for the registry regex -/

theorem litMatch_single (a b : Char) (l : Str) :
    litMatch [a] (b :: l) = (a == b) := by
  rw [litMatch]
  cases h : (a == b) <;> simp [litMatch]

theorem litMatch_mono (a b s : Str) (h : litMatch (a ++ b) s = true) :
    litMatch a s = true := by
  induction a generalizing s with
  | nil => rfl
  | cons c t ih =>
    cases s with
    | nil => simp [litMatch] at h
    | cons d ds =>
      rw [List.cons_append, litMatch, Bool.and_eq_true] at h
      rw [litMatch, Bool.and_eq_true]
      exact ⟨h.1, ih ds h.2⟩

theorem runLen_full (cs x : Str) (h : ∀ c ∈ x, clsMem true cs c = true) :
    runLen true cs x = x.length := by
  induction x with
  | nil => rfl
  | cons a t ih =>
    rw [runLen, h a (List.mem_cons_self a t),
      ih (fun c hc => h c (List.mem_cons_of_mem a hc))]
    simp

theorem mrun_dotLazy (s : Str) (pos : Nat)
    (h1 : 1 ≤ runLen true ['\n'] (s.drop pos)) :
    mrun (.cls true ['\n'] 1 none true) s pos =
      (List.range' 1 (runLen true ['\n'] (s.drop pos))).map (fun k => (pos + k, [])) := by
  simp only [mrun]
  rw [if_pos h1]
  simp

theorem mrun_seqLit_none (L : Str) (cont : RE) (s : Str) (q : Nat)
    (h : litMatch L (s.drop q) = false) : mrun (.seq (.lit L) cont) s q = [] := by
  simp [mrun, h]

theorem mrun_seqLit_some (L : Str) (cont : RE) (s : Str) (q : Nat)
    (h : litMatch L (s.drop q) = true) :
    mrun (.seq (.lit L) cont) s q = mrun cont s (q + L.length) := by
  simp [mrun, h]

theorem range_flatMap_cons {β : Type} (g : Nat → List β) (a n K : Nat)
    (haK : a ≤ K) (hKl : K < a + n)
    (hfail : ∀ k, a ≤ k → k < K → g k = [])
    (v : β) (hK : (g K).head? = some v) :
    ∃ t, (List.range' a n).flatMap g = v :: t := by
  induction n generalizing a with
  | zero => omega
  | succ n ih =>
    rw [List.range'_succ, List.flatMap_cons]
    by_cases hak : a = K
    · subst hak
      cases hg : g a with
      | nil => rw [hg] at hK; simp at hK
      | cons x xs =>
        rw [hg] at hK
        simp only [List.head?_cons, Option.some.injEq] at hK
        subst hK
        exact ⟨_, rfl⟩
    · rw [hfail a (Nat.le_refl a) (Nat.lt_of_le_of_ne haK hak), List.nil_append]
      exact ih (a + 1) (by omega) (by omega) (fun k h1 h2 => hfail k (by omega) h2)

/-- First-success characterization of a lazy `.+?` capture group followed by a
continuation: if the continuation fails after every shorter consumption and
succeeds after `K` characters, the whole sequence's match list starts with
that success, capturing exactly the `K` consumed characters. -/
theorem lazyGroupSeq_cons (i : Nat) (cont : RE) (s : Str) (pos K : Nat)
    (v : Nat × List (Nat × Str)) (w : List (Nat × List (Nat × Str)))
    (hK1 : 1 ≤ K) (hKr : K ≤ runLen true ['\n'] (s.drop pos))
    (hfail : ∀ k, 1 ≤ k → k < K → mrun cont s (pos + k) = [])
    (hsucc : mrun cont s (pos + K) = v :: w) :
    ∃ t, mrun (.seq (.group i (.cls true ['\n'] 1 none true)) cont) s pos =
      (v.1, (i, (s.drop pos).take K) :: v.2) :: t := by
  have hrun : 1 ≤ runLen true ['\n'] (s.drop pos) := Nat.le_trans hK1 hKr
  have e1 : mrun (.seq (.group i (.cls true ['\n'] 1 none true)) cont) s pos =
      (mrun (.group i (.cls true ['\n'] 1 none true)) s pos).flatMap
        (fun pc => (mrun cont s pc.1).map (fun qc => (qc.1, pc.2 ++ qc.2))) := rfl
  have e2 : mrun (.group i (.cls true ['\n'] 1 none true)) s pos =
      (mrun (.cls true ['\n'] 1 none true) s pos).map
        (fun pc => (pc.1, (i, (s.drop pos).take (pc.1 - pos)) :: pc.2)) := rfl
  rw [e1, e2, mrun_dotLazy s pos hrun, List.map_map, List.flatMap_map]
  apply range_flatMap_cons _ 1 (runLen true ['\n'] (s.drop pos)) K hK1 (by omega)
  · intro k h1 h2
    simp only [Function.comp]
    rw [hfail k h1 h2]
    rfl
  · simp only [Function.comp]
    rw [hsucc, List.map_cons]
    simp [Nat.add_sub_cancel_left]

/-- On a well-formed registry line `f : [f](p)` — first occurrences of the
separator tokens where expected, no newline in `f` or `p`, no `)` in `p` —
the registry regex matches the whole line, with group 1 capturing the
filename and group 3 the path. -/
theorem registry_match (f p : Str)
    (hf : f ≠ []) (hp : p ≠ [])
    (hnf : '\n' ∉ f) (hnp : '\n' ∉ p) (hpp : ')' ∉ p)
    (hsep : ∀ k, k < f.length →
      litMatch " : [".toList ((f ++ " : [".toList).drop k) = false)
    (hmid : ∀ k, k < f.length →
      litMatch "](".toList ((f ++ "](".toList).drop k) = false) :
    reMatch registryRE
      (f ++ " : [".toList ++ f ++ "](".toList ++ p ++ ")".toList) =
      some ((f ++ " : [".toList ++ f ++ "](".toList ++ p ++ ")".toList).length,
            [(1, f), (2, f), (3, p)]) := by
  set line := f ++ " : [".toList ++ f ++ "](".toList ++ p ++ ")".toList with hlineeq
  have hcls : ∀ c ∈ line, clsMem true ['\n'] c = true := by
    intro c hc
    have hcne : c ≠ '\n' := by
      intro he
      subst he
      rw [hlineeq] at hc
      simp only [List.mem_append] at hc
      rcases hc with ((((h | h) | h) | h) | h) | h
      · exact hnf h
      · exact absurd h (by decide)
      · exact hnf h
      · exact absurd h (by decide)
      · exact hnp h
      · exact absurd h (by decide)
    simp [clsMem, hcne]
  have hrun : ∀ q, runLen true ['\n'] (line.drop q) = (line.drop q).length :=
    fun q => runLen_full _ _ (fun c hc => hcls c (List.drop_subset q line hc))
  have hd1 : line.drop f.length =
      " : [".toList ++ (f ++ ("](".toList ++ (p ++ ")".toList))) := by
    rw [hlineeq]
    simp only [List.append_assoc]
    exact List.drop_left f _
  have hd2 : line.drop (f.length + 4) = f ++ ("](".toList ++ (p ++ ")".toList)) := by
    have e : line = (f ++ " : [".toList) ++ (f ++ ("](".toList ++ (p ++ ")".toList))) := by
      rw [hlineeq]; simp [List.append_assoc]
    rw [e, show f.length + 4 = (f ++ " : [".toList).length by simp, List.drop_left]
  have hd3 : line.drop (f.length + 4 + f.length) = "](".toList ++ (p ++ ")".toList) := by
    rw [← List.drop_drop, hd2, List.drop_left]
  have hd4 : line.drop (f.length + 4 + f.length + 2) = p ++ ")".toList := by
    rw [← List.drop_drop, hd3, show (2 : Nat) = ("](".toList).length from rfl,
      List.drop_left]
  have hd5 : line.drop (f.length + 4 + f.length + 2 + p.length) = ")".toList := by
    rw [← List.drop_drop, hd4, List.drop_left]
  have hlen : line.length = f.length + 4 + f.length + 2 + p.length + 1 := by
    rw [hlineeq]
    simp only [List.length_append,
      show (" : [".toList).length = 4 from rfl,
      show ("](".toList).length = 2 from rfl,
      show (")".toList).length = 1 from rfl]
  have hfpos : 1 ≤ f.length := List.length_pos.mpr hf
  have hppos : 1 ≤ p.length := List.length_pos.mpr hp
  have hG3 : ∃ t, mrun (.seq (.group 3 (.cls true ['\n'] 1 none true))
      (.seq (.lit ")".toList) .eps)) line (f.length + 4 + f.length + 2) =
      (f.length + 4 + f.length + 2 + p.length + 1, [(3, p)]) :: t := by
    have hKr : p.length ≤ runLen true ['\n'] (line.drop (f.length + 4 + f.length + 2)) := by
      rw [hrun, hd4]
      simp
    have hfail3 : ∀ k, 1 ≤ k → k < p.length →
        mrun (.seq (.lit ")".toList) .eps) line (f.length + 4 + f.length + 2 + k) = [] := by
      intro k _ h2
      apply mrun_seqLit_none
      rw [← List.drop_drop, hd4,
        List.drop_append_of_le_length (Nat.le_of_lt h2),
        List.drop_eq_getElem_cons h2, List.cons_append,
        show ")".toList = [')'] from rfl, litMatch_single]
      simp only [beq_eq_false_iff_ne]
      intro he
      exact hpp (he ▸ p.getElem_mem h2)
    have hsucc3 : mrun (.seq (.lit ")".toList) .eps) line
        (f.length + 4 + f.length + 2 + p.length) =
        (f.length + 4 + f.length + 2 + p.length + 1, []) :: [] := by
      rw [mrun_seqLit_some _ _ _ _ (by
        rw [hd5]
        have h := litMatch_self_append ")".toList []
        rwa [List.append_nil] at h)]
      rfl
    obtain ⟨t, ht⟩ := lazyGroupSeq_cons 3 _ line (f.length + 4 + f.length + 2)
      p.length _ _ hppos hKr hfail3 hsucc3
    rw [hd4, List.take_left] at ht
    exact ⟨t, ht⟩
  have hG2 : ∃ t, mrun (.seq (.group 2 (.cls true ['\n'] 1 none true))
      (.seq (.lit "](".toList) (.seq (.group 3 (.cls true ['\n'] 1 none true))
        (.seq (.lit ")".toList) .eps)))) line (f.length + 4) =
      (f.length + 4 + f.length + 2 + p.length + 1, [(2, f), (3, p)]) :: t := by
    obtain ⟨t3, ht3⟩ := hG3
    have hKr : f.length ≤ runLen true ['\n'] (line.drop (f.length + 4)) := by
      rw [hrun, hd2]
      simp only [List.length_append]
      omega
    have hfail2 : ∀ k, 1 ≤ k → k < f.length →
        mrun (.seq (.lit "](".toList) (.seq (.group 3 (.cls true ['\n'] 1 none true))
          (.seq (.lit ")".toList) .eps))) line (f.length + 4 + k) = [] := by
      intro k _ h2
      apply mrun_seqLit_none
      rw [← List.drop_drop, hd2,
        List.drop_append_of_le_length (Nat.le_of_lt h2),
        ← List.append_assoc,
        litMatch_append _ _ _ (by
          simp only [List.length_append, List.length_drop,
            show ("](".toList).length = 2 from rfl]
          omega),
        ← List.drop_append_of_le_length (Nat.le_of_lt h2)]
      exact hmid k h2
    have hsucc2 : mrun (.seq (.lit "](".toList) (.seq (.group 3
        (.cls true ['\n'] 1 none true)) (.seq (.lit ")".toList) .eps))) line
        (f.length + 4 + f.length) =
        (f.length + 4 + f.length + 2 + p.length + 1, [(3, p)]) :: t3 := by
      rw [mrun_seqLit_some _ _ _ _ (by
        rw [hd3, ← List.append_assoc]
        exact litMatch_mono _ _ _ (by
          rw [List.append_assoc]
          exact litMatch_self_append _ _))]
      rw [show f.length + 4 + f.length + ("](".toList).length =
        f.length + 4 + f.length + 2 from rfl]
      exact ht3
    obtain ⟨t, ht⟩ := lazyGroupSeq_cons 2 _ line (f.length + 4)
      f.length _ _ hfpos hKr hfail2 hsucc2
    rw [hd2, List.take_left] at ht
    exact ⟨t, ht⟩
  have hre : registryRE =
      .seq (.group 1 (.cls true ['\n'] 1 none true))
        (.seq (.lit " : [".toList)
          (.seq (.group 2 (.cls true ['\n'] 1 none true))
            (.seq (.lit "](".toList)
              (.seq (.group 3 (.cls true ['\n'] 1 none true))
                (.seq (.lit ")".toList) .eps))))) := rfl
  have hG1 : ∃ t, mrun registryRE line 0 =
      (f.length + 4 + f.length + 2 + p.length + 1, [(1, f), (2, f), (3, p)]) :: t := by
    obtain ⟨t2, ht2⟩ := hG2
    have hKr : f.length ≤ runLen true ['\n'] (line.drop 0) := by
      rw [hrun, List.drop_zero]
      omega
    have hfail1 : ∀ k, 1 ≤ k → k < f.length →
        mrun (.seq (.lit " : [".toList)
          (.seq (.group 2 (.cls true ['\n'] 1 none true))
            (.seq (.lit "](".toList)
              (.seq (.group 3 (.cls true ['\n'] 1 none true))
                (.seq (.lit ")".toList) .eps))))) line (0 + k) = [] := by
      intro k _ h2
      apply mrun_seqLit_none
      rw [Nat.zero_add, hlineeq]
      simp only [List.append_assoc]
      rw [List.drop_append_of_le_length (Nat.le_of_lt h2),
        ← List.append_assoc,
        litMatch_append _ _ _ (by
          simp only [List.length_append, List.length_drop,
            show (" : [".toList).length = 4 from rfl]
          omega),
        ← List.drop_append_of_le_length (Nat.le_of_lt h2)]
      exact hsep k h2
    have hsucc1 : mrun (.seq (.lit " : [".toList)
        (.seq (.group 2 (.cls true ['\n'] 1 none true))
          (.seq (.lit "](".toList)
            (.seq (.group 3 (.cls true ['\n'] 1 none true))
              (.seq (.lit ")".toList) .eps))))) line (0 + f.length) =
        (f.length + 4 + f.length + 2 + p.length + 1, [(2, f), (3, p)]) :: t2 := by
      rw [Nat.zero_add]
      rw [mrun_seqLit_some _ _ _ _ (by
        rw [hd1]
        exact litMatch_self_append _ _)]
      rw [show f.length + (" : [".toList).length = f.length + 4 from rfl]
      exact ht2
    rw [hre]
    obtain ⟨t, ht⟩ := lazyGroupSeq_cons 1 _ line 0 f.length _ _ hfpos hKr hfail1 hsucc1
    rw [List.drop_zero] at ht
    rw [show line.take f.length = f by
      rw [hlineeq]
      simp only [List.append_assoc]
      exact List.take_left f _] at ht
    exact ⟨t, ht⟩
  obtain ⟨t1, ht1⟩ := hG1
  unfold reMatch
  rw [ht1, List.head?_cons, hlen]

theorem pyStrip_eq_self (l : Str) (h1 : l.dropWhile isWs = l)
    (h2 : l.reverse.dropWhile isWs = l.reverse) : pyStrip l = l := by
  unfold pyStrip
  rw [h1, h2, List.reverse_reverse]

/-! ## C8: registry parsing extracts the path field -/

/-- C8 (counterexample): `load_file_mappings` of `fix_cursor_rules_links.py`
maps the filename to the whole `[filename](path)` link text, not to the path
component alone. -/
theorem C8_counterexample :
    lookupA (cursorLoadLine [] "a.mdc : [a.mdc](docs/a.mdc)".toList)
        "a.mdc".toList = some "[a.mdc](docs/a.mdc)".toList ∧
    lookupA (cursorLoadLine [] "a.mdc : [a.mdc](docs/a.mdc)".toList)
        "a.mdc".toList ≠ some "docs/a.mdc".toList := by
  constructor <;> decide

/-- C8 (amended): on a well-formed registry line `f : [f](p)` — nonempty
fields, separator tokens occurring first where expected, no newline or
whitespace at the field edges, no `)` in the path — the loader of
`fix_broken_links.py` maps the bare filename to the path component (group 3
of the registry regex), while the loader of `fix_cursor_rules_links.py` maps
the bare filename to the entire `[f](p)` link text. -/
theorem C8_registry_parse (f p : Str)
    (hf : f ≠ []) (hp : p ≠ [])
    (hnf : '\n' ∉ f) (hnp : '\n' ∉ p) (hpp : ')' ∉ p)
    (hcolon : ∀ k, k < f.length →
      litMatch " : ".toList ((f ++ " : ".toList).drop k) = false)
    (hmid : ∀ k, k < f.length →
      litMatch "](".toList ((f ++ "](".toList).drop k) = false)
    (hhead : isWs f.headI = false)
    (hlast : isWs f.reverse.headI = false) :
    loadFB (some [f ++ " : [".toList ++ f ++ "](".toList ++ p ++ ")".toList]) =
      [(f, p)] ∧
    lookupA (cursorLoadLine []
        (f ++ " : [".toList ++ f ++ "](".toList ++ p ++ ")".toList)) f =
      some ("[".toList ++ f ++ "](".toList ++ p ++ ")".toList) := by
  set line := f ++ " : [".toList ++ f ++ "](".toList ++ p ++ ")".toList with hlineeq
  have hsep : ∀ k, k < f.length →
      litMatch " : [".toList ((f ++ " : [".toList).drop k) = false := by
    intro k hk
    cases hval : litMatch " : [".toList ((f ++ " : [".toList).drop k) with
    | false => rfl
    | true =>
      exfalso
      rw [List.drop_append_of_le_length (Nat.le_of_lt hk),
        show " : [".toList = " : ".toList ++ "[".toList from rfl] at hval
      have h2 := litMatch_mono _ _ _ hval
      rw [← List.append_assoc,
        litMatch_append _ _ _ (by
          simp only [List.length_append, List.length_drop,
            show (" : ".toList).length = 3 from rfl]
          omega),
        ← List.drop_append_of_le_length (Nat.le_of_lt hk)] at h2
      rw [hcolon k hk] at h2
      exact Bool.false_ne_true h2
  have hmatch := registry_match f p hf hp hnf hnp hpp hsep hmid
  have hd1 : line.drop f.length =
      " : [".toList ++ (f ++ ("](".toList ++ (p ++ ")".toList))) := by
    rw [hlineeq]
    simp only [List.append_assoc]
    exact List.drop_left f _
  have hd2 : line.drop (f.length + 4) = f ++ ("](".toList ++ (p ++ ")".toList)) := by
    have e : line = (f ++ " : [".toList) ++ (f ++ ("](".toList ++ (p ++ ")".toList))) := by
      rw [hlineeq]; simp [List.append_assoc]
    rw [e, show f.length + 4 = (f ++ " : [".toList).length by simp, List.drop_left]
  have hd3 : line.drop (f.length + 4 + f.length) = "](".toList ++ (p ++ ")".toList) := by
    rw [← List.drop_drop, hd2, List.drop_left]
  have hc1 : containsSub " : [".toList line = true :=
    containsSub_of_drop _ _ f.length (by rw [hd1]; exact litMatch_self_append _ _)
  have hc2 : containsSub "](".toList line = true :=
    containsSub_of_drop _ _ (f.length + 4 + f.length)
      (by rw [hd3]; exact litMatch_self_append _ _)
  have hc3 : containsSub " : ".toList line = true :=
    containsSub_of_drop _ _ f.length (by
      rw [hd1, show " : [".toList = " : ".toList ++ "[".toList from rfl,
        List.append_assoc]
      exact litMatch_self_append _ _)
  have hstrip : pyStrip line = line := by
    apply pyStrip_eq_self
    · cases hf' : f with
      | nil => exact absurd hf' hf
      | cons c0 ft =>
        have hws : isWs c0 = false := by
          rw [hf'] at hhead
          simpa using hhead
        rw [hlineeq, hf']
        simp only [List.append_assoc, List.cons_append]
        rw [List.dropWhile_cons, hws]
        simp
    · have he : line = (f ++ " : [".toList ++ f ++ "](".toList ++ p) ++ [')'] := by
        rw [hlineeq]
        simp [List.append_assoc, show ")".toList = [')'] from rfl]
      rw [he, List.reverse_append]
      simp only [List.reverse_cons, List.reverse_nil, List.nil_append,
        List.singleton_append]
      rw [List.dropWhile_cons, show isWs ')' = false from by decide]
      simp
  refine ⟨?_, ?_⟩
  · show loadFBLine [] line = [(f, p)]
    simp only [loadFBLine, hstrip, hc1, hc2, hmatch, Bool.and_self, if_true]
    rfl
  · have hlform : line = (f ++ " : ".toList) ++
        ("[".toList ++ f ++ "](".toList ++ p ++ ")".toList) := by
      rw [hlineeq]
      simp [List.append_assoc, show " : [".toList = " : ".toList ++ "[".toList from rfl]
    have hsplit : pySplit1 " : ".toList line =
        some (f, "[".toList ++ f ++ "](".toList ++ p ++ ")".toList) := by
      rw [hlform]
      exact pySplit1_first _ _ _ (by decide) hcolon
    have hfstrip : pyStrip f = f := by
      apply pyStrip_eq_self
      · cases hf' : f with
        | nil => simp
        | cons c0 ft =>
          have hws : isWs c0 = false := by
            rw [hf'] at hhead
            simpa using hhead
          rw [List.dropWhile_cons, hws]
          simp
      · cases hr' : f.reverse with
        | nil => rfl
        | cons c0 rt =>
          have hws : isWs c0 = false := by
            rw [hr'] at hlast
            simpa using hlast
          rw [List.dropWhile_cons, hws]
          simp
    have hvstrip : pyStrip ("[".toList ++ f ++ "](".toList ++ p ++ ")".toList) =
        "[".toList ++ f ++ "](".toList ++ p ++ ")".toList := by
      apply pyStrip_eq_self
      · have e : "[".toList ++ f ++ "](".toList ++ p ++ ")".toList =
            '[' :: (f ++ ("](".toList ++ (p ++ ")".toList))) := by
          simp only [List.append_assoc]
          rfl
        rw [e, List.dropWhile_cons, show isWs '[' = false from by decide]
        simp
      · have e : "[".toList ++ f ++ "](".toList ++ p ++ ")".toList =
            ("[".toList ++ f ++ "](".toList ++ p) ++ [')'] := by
          simp [List.append_assoc, show ")".toList = [')'] from rfl]
        rw [e, List.reverse_append]
        simp only [List.reverse_cons, List.reverse_nil, List.nil_append,
          List.singleton_append]
        rw [List.dropWhile_cons, show isWs ')' = false from by decide]
        simp
    by_cases hmdc : endsWithS ".mdc".toList f = true
    · have hcur : cursorLoadLine [] line =
          insertA (insertA [] f ("[".toList ++ f ++ "](".toList ++ p ++ ")".toList))
            (f.take (f.length - 4))
            ("[".toList ++ f ++ "](".toList ++ p ++ ")".toList) := by
        simp only [cursorLoadLine, hc3, hsplit, hfstrip, hvstrip, hmdc, if_true]
      rw [hcur]
      have hlen4 : 4 ≤ f.length := by
        unfold endsWithS at hmdc
        rw [Bool.and_eq_true] at hmdc
        have := of_decide_eq_true hmdc.1
        simpa using this
      rw [lookupA_insertA_ne _ _ _ _ (by
        intro he
        have hlt := congrArg List.length he
        rw [List.length_take] at hlt
        omega)]
      exact lookupA_insertA_self _ _ _
    · have hcur : cursorLoadLine [] line =
          insertA [] f ("[".toList ++ f ++ "](".toList ++ p ++ ")".toList) := by
        rw [Bool.not_eq_true] at hmdc
        simp only [cursorLoadLine, hc3, hsplit, hfstrip, hvstrip, hmdc]
        simp
      rw [hcur]
      exact lookupA_insertA_self _ _ _

/-- C8 (witness): the amended statement applied to the registry line
`a.mdc : [a.mdc](docs/a.mdc)`. -/
theorem C8_witness :
    loadFB (some ["a.mdc".toList ++ " : [".toList ++ "a.mdc".toList ++
        "](".toList ++ "docs/a.mdc".toList ++ ")".toList]) =
      [("a.mdc".toList, "docs/a.mdc".toList)] ∧
    lookupA (cursorLoadLine [] ("a.mdc".toList ++ " : [".toList ++
        "a.mdc".toList ++ "](".toList ++ "docs/a.mdc".toList ++ ")".toList))
        "a.mdc".toList =
      some ("[".toList ++ "a.mdc".toList ++ "](".toList ++
        "docs/a.mdc".toList ++ ")".toList) :=
  C8_registry_parse "a.mdc".toList "docs/a.mdc".toList
    (by decide) (by decide) (by decide) (by decide) (by decide)
    (by decide) (by decide) (by decide) (by decide)

/-- C7 (witness): isolation applied to a concrete run where the middle file's
read fails: the two surrounding one-line files are still processed. -/
theorem C7_witness :
    (runFB [.ok ["x".toList] false, .readError, .ok ["y".toList] false] []).2 =
      (runFB [.ok ["x".toList] false] []).2 + perFileFB [] .readError +
        (runFB [.ok ["y".toList] false] []).2 ∧
    perFileFB ([] : AList) .readError = 0 :=
  ⟨(C7_per_file_isolation [.ok ["x".toList] false] [.ok ["y".toList] false]
      .readError []).1,
   (C7_per_file_isolation [] [] .readError []).2.2.1⟩

end LinkRepair
